import Mathlib

/-!
# N-Queens genetic algorithm (`Evolution.hpp`, `Evolution.cpp`)

A shallow embedding of the classes `Evolution::Genotype` and `Evolution`.

* `std::vector<T>` is a `List T`; `int` is `Int` (nothing proved below depends on 32-bit overflow);
  a `size_t` position is a `Nat`.
* The process-wide engine `Evolution::Randomizer` is the stream of the values its successive
  calls return; every function that calls it takes the engine and returns the engine left over.
* `float` values (`fitness()`) are exact rationals.
-/

namespace Evolution

/-! ## The random engine -/

/-- The engine `Evolution::Randomizer`: the stream of values that its successive calls return. -/
abbrev Randomizer := Nat → Nat

/-- One call `Evolution::Randomizer()`: the value returned, and the engine afterwards. -/
def Randomizer.draw (r : Randomizer) : Nat × Randomizer :=
  (r 0, fun k => r (k + 1))

/-! ## Genotype -/

/-- The class `Evolution::Genotype`: the cached collision count and the gene sequence. -/
structure Genotype where
  _fitness : Int
  _gene : List Int
deriving DecidableEq

namespace Genotype

/-- The constant `Genotype::Epsilon = 0.0001`. -/
def Epsilon : ℚ := 1 / 10000

/-- The method `Genotype::length()`. -/
def length (g : Genotype) : Nat := g._gene.length

/-- The method `Genotype::gene(i)`, that is `_gene[i]` (the C++ is undefined for
`i ≥ length()`, where this model reads 0). -/
def gene (g : Genotype) (i : Nat) : Int := g._gene.getD i 0

/-- The statement `diagonals[k]++` on a `std::vector<int>`. The index is computed in `size_t`;
when it falls outside the vector the C++ is undefined, and this model leaves the vector as
it is. -/
def increment (diagonals : List Int) (k : Int) : List Int :=
  if 0 ≤ k then diagonals.modify (fun c => c + 1) k.toNat else diagonals

/-- The body of the two loops `for (diagonalCount : diagonals) if (diagonalCount > 1) ...`. -/
def addCollisions (collisions diagonalCount : Int) : Int :=
  if diagonalCount > 1 then collisions + (diagonalCount - 1) * 2 else collisions

/-- The class method `Genotype::Fitness` (Evolution.cpp:18-43). -/
def Fitness (genotype : Genotype) : Int :=
  let diagonalsL : List Int :=
    (List.range genotype.length).foldl
      (fun (d : List Int) (i : Nat) => increment d ((i : Int) + genotype.gene i))
      (List.replicate (genotype.length * 2 - 1) 0)
  let length : Int := (genotype.length : Int) - 1
  let diagonalsR : List Int :=
    (List.range genotype.length).foldl
      (fun (d : List Int) (i : Nat) => increment d ((i : Int) + (length - genotype.gene i)))
      (List.replicate (genotype.length * 2 - 1) 0)
  let collisions : Int := diagonalsL.foldl addCollisions 0
  diagonalsR.foldl addCollisions collisions

/-- The constructor `Genotype(const Gene &genes)`: stores the genes and caches their fitness. -/
def ofGene (genes : List Int) : Genotype :=
  let this : Genotype := { _fitness := 0, _gene := genes }
  { this with _fitness := Fitness this }

/-- The method `Genotype::fitness()`: `1 / (_fitness + Epsilon)`, over the rationals. -/
def fitness (g : Genotype) : ℚ := 1 / ((g._fitness : ℚ) + Epsilon)

/-- The comparison `operator>`: by `fitness()` only. -/
def gt (a b : Genotype) : Bool := decide (a.fitness > b.fitness)

/-- The comparison `operator<`: by `fitness()` only. -/
def lt (a b : Genotype) : Bool := decide (a.fitness < b.fitness)

/-- The value a default-constructed slot holds in this model (read only where the C++ reads
outside a vector, which is undefined there). -/
instance : Inhabited Genotype := ⟨{ _fitness := 0, _gene := [] }⟩

/-- The constant `Genotype::DefaultMutationPercent = 0.1`. -/
def DefaultMutationPercent : ℚ := 1 / 10

/-- The method `Genotype::crossover` (Evolution.cpp:118-151). It returns the vector of children
and the engine after its one call. For an empty gene the C++ divides by zero. -/
def crossover (self genotype : Genotype) (r : Randomizer) : List Genotype × Randomizer :=
  let crossPoint : Nat := r.draw.1 % self._gene.length
  let r := r.draw.2
  let geneA : List Int := self._gene
  let geneB : List Int := genotype._gene
  -- Copy the parents' genes up to the cross point.
  let childA : List Int := geneA.take crossPoint
  let childB : List Int := geneB.take crossPoint
  -- Remove any duplicates from each other's genes.
  let genes : List Int × List Int :=
    (List.range crossPoint).foldl
      (fun (p : List Int × List Int) (i : Nat) =>
        (p.1.erase (genotype.gene i), p.2.erase (self.gene i)))
      (geneA, geneB)
  -- Copy the remaining genes of the alternate parent to each child.
  let childA : List Int := childA ++ genes.2
  let childB : List Int := childB ++ genes.1
  ([ofGene childA, ofGene childB], r)

/-- The method `Genotype::mutate` (Evolution.cpp:154-168): two calls of the engine choose the
two points, whose genes are exchanged; the fitness is computed again. -/
def mutate (self : Genotype) (r : Randomizer) : Genotype × Randomizer :=
  let pointA : Nat := r.draw.1 % self._gene.length
  let r := r.draw.2
  let pointB : Nat := r.draw.1 % self._gene.length
  let r := r.draw.2
  let geneA : Int := self._gene.getD pointA 0
  let geneB : Int := self._gene.getD pointB 0
  let gene : List Int := (self._gene.set pointA geneB).set pointB geneA
  let self : Genotype := { self with _gene := gene }
  ({ self with _fitness := Fitness self }, r)

/-- The test of `Genotype::mate`: `Randomizer() % 100 <= DefaultMutationPercent * 100`. -/
def mutationChance (x : Nat) : Bool :=
  decide (((x % 100 : Nat) : ℚ) ≤ DefaultMutationPercent * 100)

/-- The method `Genotype::mate` (Evolution.cpp:103-116). -/
def mate (self genotype : Genotype) (r : Randomizer) : List Genotype × Randomizer :=
  let child : List Genotype := (self.crossover genotype r).1
  let r := (self.crossover genotype r).2
  let x : Nat := r.draw.1
  let r := r.draw.2
  if mutationChance x then
    let c0 := (child.getD 0 default).mutate r
    let child := child.set 0 c0.1
    let c1 := (child.getD 1 default).mutate c0.2
    let child := child.set 1 c1.1
    (child, c1.2)
  else
    (child, r)

/-- The loop of `std::shuffle(first, last, engine)`, which is library code: position `i`, from
the last down to 1, is exchanged with a position drawn in `[0, i]`. The theorems below rely
only on the result being a rearrangement (`shuffle_perm`). -/
def shuffleLoop : Nat → List Int → Randomizer → List Int × Randomizer
  | 0, gene, r => (gene, r)
  | i + 1, gene, r =>
    let j : Nat := r.draw.1 % (i + 2)
    shuffleLoop i ((gene.set (i + 1) (gene.getD j 0)).set j (gene.getD (i + 1) 0)) r.draw.2

/-- The call `std::shuffle(_gene.begin(), _gene.end(), Evolution::Randomizer)`. -/
def shuffle (gene : List Int) (r : Randomizer) : List Int × Randomizer :=
  shuffleLoop (gene.length - 1) gene r

/-- The call `std::iota(_gene.begin(), _gene.end(), 0)` on a vector of `geneLength` entries. -/
def iota (geneLength : Nat) : List Int := (List.range geneLength).map Int.ofNat

/-- The constructor `Genotype(const int geneLength)` (Evolution.cpp:181-197), for
`geneLength ≥ 1` (for smaller lengths the C++ throws, see `tryConstruct`). -/
def random (geneLength : Nat) (r : Randomizer) : Genotype × Randomizer :=
  let s := shuffle (iota geneLength) r
  (ofGene s.1, s.2)

/-- A gene sequence is a permutation of `{0, …, N-1}`: it has `N` entries and each of the
values `0, …, N-1` occurs exactly once. -/
def IsPermutation (N : Nat) (gene : List Int) : Prop :=
  gene.length = N ∧ ∀ v : Nat, v < N → gene.count (v : Int) = 1

instance (N : Nat) (gene : List Int) : Decidable (IsPermutation N gene) := by
  unfold IsPermutation
  exact inferInstance

/-- The gene has a diagonal collision: two different rows `i`, `j` with
`|gene[i] - gene[j]| = |i - j|`. -/
def HasCollision (g : Genotype) : Prop :=
  ∃ i j : Nat, i < g.length ∧ j < g.length ∧ i ≠ j ∧
    |g.gene i - g.gene j| = |(i : Int) - (j : Int)|

/-- The bins `i + gene(i)` that the rows `0, …, N-1` fall in, row by row. -/
def leftBins (g : Genotype) : List Int :=
  (List.range g.length).map (fun i : Nat => (i : Int) + g.gene i)

/-- The bins `i + (N-1 - gene(i))` that the rows `0, …, N-1` fall in, row by row. -/
def rightBins (g : Genotype) : List Int :=
  (List.range g.length).map (fun i : Nat => (i : Int) + (((g.length : Int) - 1) - g.gene i))

/-- The gene values all lie in `[0, N-1]`, `N` being the length. -/
def InRange (g : Genotype) : Prop :=
  ∀ i : Nat, i < g.length → 0 ≤ g.gene i ∧ g.gene i ≤ (g.length : Int) - 1

instance (g : Genotype) : Decidable (InRange g) := by
  unfold InRange
  exact inferInstance

/-- The cached collision count is the one of the current gene. -/
def Consistent (g : Genotype) : Prop := g._fitness = Fitness g

/-- A candidate for board size `N`: its gene is a permutation of `{0, …, N-1}` and its cached
collision count is the one of that gene. -/
def Valid (N : Nat) (g : Genotype) : Prop := IsPermutation N g._gene ∧ Consistent g

/-- The assignment `operator=` (Evolution.cpp:76-81): the gene and the cached collision
count of `other` are copied. -/
def assign (self other : Genotype) : Genotype :=
  { self with _gene := other._gene, _fitness := other._fitness }

/-- The copy constructor `Genotype(const Genotype &genotype)` (Evolution.cpp:176-179):
`*this = genotype`. -/
def copy (genotype : Genotype) : Genotype :=
  (default : Genotype).assign genotype

/-- The number of rows `i` that fall in the left bin `bin`, that is with `i + gene(i) = bin`. -/
def rowsInLeftBin (g : Genotype) (bin : Nat) : Nat :=
  ((List.range g.length).filter
    (fun i : Nat => decide ((i : Int) + g.gene i = (bin : Int)))).length

/-- The number of rows `i` that fall in the right bin `bin`, that is with
`i + (N-1 - gene(i)) = bin`. -/
def rowsInRightBin (g : Genotype) (bin : Nat) : Nat :=
  ((List.range g.length).filter
    (fun i : Nat => decide ((i : Int) + (((g.length : Int) - 1) - g.gene i) = (bin : Int)))).length

/-- The number of ordered pairs `(i, j)` of different rows with
`|gene[i] - gene[j]| = |i - j|`. -/
def orderedCollisions (g : Genotype) : Nat :=
  ((List.range g.length).map (fun i : Nat =>
    ((List.range g.length).filter (fun j : Nat =>
      decide (i ≠ j ∧ |g.gene i - g.gene j| = |(i : Int) - (j : Int)|))).length)).sum

/-- Collisions that `Fitness` counts for a diagonal holding `k` queens. -/
def collisionsOf (k : Int) : Int := if k > 1 then (k - 1) * 2 else 0

end Genotype

/-! ## The controller -/

/-- The type `Evolution::Population`. -/
abbrev Population := List Genotype

/-- The constant `Evolution::DefaultParentPercent = 0.10`. -/
def DefaultParentPercent : ℚ := 1 / 10

/-- The call `std::sort(first, last, comp)`, which is library code: the result is a
rearrangement in which no element is `comp`-before an earlier one. The standard leaves the
order of elements that `comp` does not separate open; the theorems below rely only on
`sort_perm` and `sort_gt_sorted`, which hold for every such rearrangement. -/
def sort (comp : Genotype → Genotype → Bool) (population : Population) : Population :=
  population.insertionSort (fun a b => comp b a = false)

/-- The top of a `std::priority_queue<Genotype>` after three `push` calls: each push sifts the
new element above its parent when the parent is `operator<` it. -/
def top3 (c0 c1 c2 : Genotype) : Genotype :=
  let t : Genotype := if c0.lt c1 then c1 else c0
  if t.lt c2 then c2 else t

/-- One round of the loop `while (parentCount--)` of `_extractParents`: three candidates are
drawn and the top one is taken. -/
def pickParent (population : Population) (r : Randomizer) : Genotype × Randomizer :=
  let c0 : Genotype := population.getD (r.draw.1 % population.length) default
  let r := r.draw.2
  let c1 : Genotype := population.getD (r.draw.1 % population.length) default
  let r := r.draw.2
  let c2 : Genotype := population.getD (r.draw.1 % population.length) default
  let r := r.draw.2
  (top3 c0 c1 c2, r)

/-- The loop `while (parentCount--)` of `_extractParents`. -/
def pickParents (population : Population) :
    Nat → Population → Randomizer → Population × Randomizer
  | 0, parents, r => (parents, r)
  | parentCount + 1, parents, r =>
    let p := pickParent population r
    pickParents population parentCount (parents ++ [p.1]) p.2

/-- The method `Evolution::_extractParents` (Evolution.cpp:290-318). -/
def _extractParents (population : Population) (parentCount : Nat) (r : Randomizer) :
    Population × Randomizer :=
  -- Assure there's an even number of parents.
  let parentCount : Nat := if parentCount % 2 ≠ 0 then parentCount + 1 else parentCount
  let p := pickParents population parentCount [] r
  (sort Genotype.gt p.1, p.2)

/-- The method `Evolution::_extractNonSurvivors` (Evolution.cpp:320-330): the population that
is kept, and the dead that are returned. -/
def _extractNonSurvivors (population : Population) (survivorCount : Nat) :
    Population × Population :=
  let population := sort Genotype.gt population
  (population.take survivorCount, population.drop survivorCount)

end Evolution

/-- The class `Evolution` (Evolution.hpp:153-157). -/
structure Evolution where
  _population : Evolution.Population
  _populationSize : Nat
  _progressLimit : Int
  _progress : Int

namespace Evolution

/-- The constructor `Evolution(geneLength, generationLimit)` (Evolution.cpp:332-340), for
`geneLength ≥ 1`. The population is filled with copies of one `Genotype(geneLength)`, made with
the engine `r` as it is on entry; the body then replaces the engine by a newly seeded one,
`seeded`. -/
def construct (geneLength : Nat) (generationLimit : Int) (r seeded : Randomizer) :
    Evolution × Randomizer :=
  let populationSize : Nat := if geneLength > 10 then geneLength * 10 else 100
  ({ _population := List.replicate populationSize (Genotype.random geneLength r).1
     _populationSize := populationSize
     _progressLimit := generationLimit
     _progress := 0 }, seeded)

/-- The method `Evolution::progress`. -/
def progress (e : Evolution) : Int := e._progress

/-- The method `Evolution::progressLimit`. -/
def progressLimit (e : Evolution) : Int := e._progressLimit

/-- The method `Evolution::solution`: `_population.front()`. -/
def solution (e : Evolution) : Genotype := e._population.headD default

/-- The method `Evolution::solved`. -/
def solved (e : Evolution) : Bool := decide (e.solution.fitness ≥ 1)

/-- The method `Evolution::solving`. -/
def solving (e : Evolution) : Bool := !e.solved && decide (e.progress < e.progressLimit)

/-- The `for` loop of `Evolution::evolve`: round `i` mates `parents[2i]` with `parents[2i+1]`
and appends the children to the population. -/
def breed (parents : Population) (rounds : Nat) (population : Population) (r : Randomizer) :
    Population × Randomizer :=
  (List.range rounds).foldl
    (fun (s : Population × Randomizer) (i : Nat) =>
      let parentA : Genotype := parents.getD (i * 2) default
      let parentB : Genotype := parents.getD (i * 2 + 1) default
      let children := parentA.mate parentB s.2
      (s.1 ++ children.1, children.2))
    (population, r)

/-- The method `Evolution::evolve` (Evolution.cpp:244-272). -/
def evolve (e : Evolution) (r : Randomizer) : Evolution × Randomizer :=
  -- `const int parentCount = _populationSize * DefaultParentPercent`, truncated.
  let parentCount : Nat := Int.toNat ⌊(e._populationSize : ℚ) * DefaultParentPercent⌋
  let parents := _extractParents e._population parentCount r
  let grown := breed parents.1 (parents.1.length / 2) e._population parents.2
  let survivors := _extractNonSurvivors grown.1 e._populationSize
  ({ e with _population := survivors.1, _progress := e._progress + 1 }, grown.2)

/-- A loop `while (test()) step();` whose test fails once `_progress` has reached
`_progressLimit`, and whose step raises `_progress` by one and keeps `_progressLimit`; this is
what makes the loop end. -/
def whileLoop (test : Evolution → Bool)
    (step : Evolution → Randomizer → Evolution × Randomizer)
    (htest : ∀ e : Evolution, test e = true → e._progress < e._progressLimit)
    (hstep : ∀ (e : Evolution) (r : Randomizer),
      (step e r).1._progress = e._progress + 1 ∧
        (step e r).1._progressLimit = e._progressLimit)
    (e : Evolution) (r : Randomizer) : Evolution × Randomizer :=
  if test e = true then whileLoop test step htest hstep (step e r).1 (step e r).2 else (e, r)
termination_by (e._progressLimit - e._progress).toNat
decreasing_by
  rename_i h
  have hlt := htest e h
  rw [(hstep e r).1, (hstep e r).2]
  omega

/-- The loop `while (solving()) evolve();` of `Evolution::resolve`. -/
def resolveLoop (e : Evolution) (r : Randomizer) : Evolution × Randomizer :=
  whileLoop solving evolve
    (fun e h => by
      simp only [solving, progress, progressLimit, Bool.and_eq_true, decide_eq_true_eq] at h
      exact h.2)
    (fun _ _ => ⟨rfl, rfl⟩) e r

/-- The method `Evolution::resolve` (Evolution.cpp:284-288): the genotype returned, the
controller and the engine afterwards. -/
def resolve (e : Evolution) (r : Randomizer) : Genotype × Evolution × Randomizer :=
  let s := resolveLoop e r
  (s.1.solution, s.1, s.2)

/-- The controller and the engine after `k` successive `evolve()` calls. -/
def evolveTimes : Nat → Evolution → Randomizer → Evolution × Randomizer
  | 0, e, r => (e, r)
  | k + 1, e, r => evolveTimes k (e.evolve r).1 (e.evolve r).2

/-- The state the specification describes: the population has its fixed size, its members
are valid candidates for board size `N`, and none of them beats the first one. -/
def Invariant (N : Nat) (e : Evolution) : Prop :=
  e._populationSize = (if N > 10 then N * 10 else 100) ∧
    e._population.length = e._populationSize ∧
    (∀ c ∈ e._population, Genotype.Valid N c) ∧
    (∀ c ∈ e._population, c.fitness ≤ e.solution.fitness)

/-- The candidate `*(population.begin() + (Randomizer() % population.size()))` that the call
number `k` of the engine `r` selects. -/
def sample (population : Population) (r : Randomizer) (k : Nat) : Genotype :=
  population.getD (r k % population.length) default

/-- The winner of the tournament number `k` of `_extractParents`, which uses the calls
`3k`, `3k+1`, `3k+2` of the engine. -/
def tournament (population : Population) (r : Randomizer) (k : Nat) : Genotype :=
  top3 (sample population r (3 * k)) (sample population r (3 * k + 1))
    (sample population r (3 * k + 2))

/-- The constructor call `Evolution(geneLength, generationLimit)` with its two `int`
arguments, as the caller sees it: `none` when the call throws. The source checks neither
argument and has no `throw` statement. For `geneLength ≤ 0` the `std::vector` constructors
are asked for more entries than they can hold (`_gene(geneLength)` for a negative length,
`diagonalsL(length() * 2 - 1)` for length 0) and throw; otherwise the controller is made. -/
def tryConstruct (geneLength generationLimit : Int) (r seeded : Randomizer) :
    Option (Evolution × Randomizer) :=
  if geneLength ≤ 0 then none
  else some (construct geneLength.toNat generationLimit r seeded)

/-- States of the controller that construction with board size `N` followed by any number of
`evolve()` calls can produce, whatever the engine returns. -/
inductive Reachable (N : Nat) : Evolution → Prop
  | construct (generationLimit : Int) (r seeded : Randomizer) :
      Reachable N (construct N generationLimit r seeded).1
  | evolve {e : Evolution} (r : Randomizer) :
      Reachable N e → Reachable N (e.evolve r).1

end Evolution


namespace Evolution
namespace Genotype

theorem length_increment (d : List Int) (k : Int) : (increment d k).length = d.length := by
  unfold increment
  split <;> simp

theorem getD_increment (d : List Int) (k : Int) (j : Nat) :
    (increment d k).getD j 0 = d.getD j 0 + (if (j : Int) = k ∧ j < d.length then 1 else 0) := by
  unfold increment
  by_cases hk : 0 ≤ k
  · rw [if_pos hk]
    simp only [List.getD_eq_getElem?_getD, List.getElem?_modify]
    by_cases hj : j < d.length
    · rw [List.getElem?_eq_getElem hj]
      by_cases hjk : (j : Int) = k
      · have : k.toNat = j := by omega
        simp [hjk, hj, this]
      · have : k.toNat ≠ j := by omega
        simp [hjk, this]
    · rw [List.getElem?_eq_none (by omega)]
      simp [hj]
  · rw [if_neg hk]
    have : ¬ ((j : Int) = k) := by omega
    simp [this]

/-- The histogram loop: entry `j` ends as its start value plus the number of keys equal to `j`. -/
theorem getD_foldl_increment (ks : List Int) (d : List Int) (j : Nat) :
    (ks.foldl increment d).getD j 0 =
      d.getD j 0 + (if j < d.length then (ks.count (j : Int) : Int) else 0) := by
  induction ks generalizing d with
  | nil => simp
  | cons k ks ih =>
    rw [List.foldl_cons, ih, getD_increment, length_increment, List.count_cons]
    by_cases hj : j < d.length
    · by_cases hjk : (j : Int) = k
      · have : (k == (j : Int)) = true := by simp [hjk]
        simp [hj, hjk]
        omega
      · have : ¬ (k = (j : Int)) := fun h => hjk h.symm
        simp [hj, hjk, this]
    · simp [hj]

theorem length_foldl_increment (ks : List Int) (d : List Int) :
    (ks.foldl increment d).length = d.length := by
  induction ks generalizing d with
  | nil => rfl
  | cons k ks ih => rw [List.foldl_cons, ih, length_increment]

end Genotype
end Evolution

namespace Evolution
namespace Genotype

/-! ### The collision count -/

theorem collisionsOf_nonneg (k : Int) : 0 ≤ collisionsOf k := by
  unfold collisionsOf
  split <;> omega

theorem collisionsOf_eq_zero_iff (k : Int) : collisionsOf k = 0 ↔ k ≤ 1 := by
  unfold collisionsOf
  split <;> omega

theorem foldl_addCollisions (d : List Int) (c : Int) :
    d.foldl addCollisions c = c + (d.map collisionsOf).sum := by
  induction d generalizing c with
  | nil => simp
  | cons k d ih =>
    rw [List.foldl_cons, ih, List.map_cons, List.sum_cons]
    unfold addCollisions collisionsOf
    split <;> omega

theorem sum_collisionsOf_nonneg (d : List Int) : 0 ≤ (d.map collisionsOf).sum := by
  induction d with
  | nil => simp
  | cons k d ih =>
    rw [List.map_cons, List.sum_cons]
    have := collisionsOf_nonneg k
    omega

theorem sum_collisionsOf_eq_zero_iff (d : List Int) :
    (d.map collisionsOf).sum = 0 ↔ ∀ k ∈ d, k ≤ 1 := by
  induction d with
  | nil => simp
  | cons k d ih =>
    rw [List.map_cons, List.sum_cons]
    have h1 := collisionsOf_nonneg k
    have h2 := sum_collisionsOf_nonneg d
    have h3 := collisionsOf_eq_zero_iff k
    constructor
    · intro h x hx
      rcases List.mem_cons.1 hx with rfl | hx
      · exact h3.1 (by omega)
      · exact ih.1 (by omega) x hx
    · intro h
      have hk := h3.2 (h k (List.mem_cons_self _ _))
      have hd := ih.2 (fun x hx => h x (List.mem_cons_of_mem _ hx))
      omega

/-- The histogram of a list of bins over `m` zeroed slots. -/
theorem histogram_eq (ks : List Int) (m : Nat) :
    ks.foldl increment (List.replicate m 0) =
      (List.range m).map (fun j : Nat => (ks.count (j : Int) : Int)) := by
  apply List.ext_getElem
  · simp [length_foldl_increment]
  · intro j h1 h2
    have hj : j < m := by simpa [length_foldl_increment] using h1
    have h := getD_foldl_increment ks (List.replicate m 0) j
    rw [List.getD_eq_getElem _ _ h1] at h
    rw [h]
    simp [hj, List.getD_eq_getElem?_getD]

/-- The value of `Fitness` as a sum over the bins of both diagonal directions. -/
theorem Fitness_eq_sum (g : Genotype) :
    Fitness g =
      (((List.range (g.length * 2 - 1)).map
          (fun j : Nat => ((leftBins g).count (j : Int) : Int))).map collisionsOf).sum +
      (((List.range (g.length * 2 - 1)).map
          (fun j : Nat => ((rightBins g).count (j : Int) : Int))).map collisionsOf).sum := by
  unfold Fitness
  simp only []
  rw [foldl_addCollisions, foldl_addCollisions, zero_add]
  have hL := histogram_eq (leftBins g) (g.length * 2 - 1)
  have hR := histogram_eq (rightBins g) (g.length * 2 - 1)
  unfold leftBins at hL
  unfold rightBins at hR
  rw [List.foldl_map] at hL hR
  rw [hL, hR]
  rfl

theorem Fitness_nonneg (g : Genotype) : 0 ≤ Fitness g := by
  rw [Fitness_eq_sum]
  have h1 := sum_collisionsOf_nonneg ((List.range (g.length * 2 - 1)).map
    (fun j : Nat => ((leftBins g).count (j : Int) : Int)))
  have h2 := sum_collisionsOf_nonneg ((List.range (g.length * 2 - 1)).map
    (fun j : Nat => ((rightBins g).count (j : Int) : Int)))
  omega

/-- When every bin of `ks` is a slot of the histogram, no slot exceeds one exactly when no
bin repeats. -/
theorem slots_le_one_iff_nodup (ks : List Int) (m : Nat)
    (hr : ∀ k ∈ ks, 0 ≤ k ∧ k < (m : Int)) :
    (∀ c ∈ (List.range m).map (fun j : Nat => ((ks.count (j : Int) : Nat) : Int)), c ≤ 1) ↔
      ks.Nodup := by
  rw [List.nodup_iff_count_le_one]
  constructor
  · intro h a
    by_cases ha : a ∈ ks
    · obtain ⟨h0, hm⟩ := hr a ha
      have hmem : ((ks.count ((a.toNat : Nat) : Int) : Nat) : Int) ∈
          (List.range m).map (fun j : Nat => ((ks.count (j : Int) : Nat) : Int)) :=
        List.mem_map.2 ⟨a.toNat, List.mem_range.2 (by omega), rfl⟩
      have hle := h _ hmem
      have hcast : ((a.toNat : Nat) : Int) = a := Int.toNat_of_nonneg h0
      rw [hcast] at hle
      omega
    · rw [List.count_eq_zero_of_not_mem ha]
      omega
  · intro h c hc
    obtain ⟨j, -, rfl⟩ := List.mem_map.1 hc
    have := h (j : Int)
    omega

theorem leftBins_inRange (g : Genotype) (hv : InRange g) :
    ∀ k ∈ leftBins g, 0 ≤ k ∧ k < ((g.length * 2 - 1 : Nat) : Int) := by
  intro k hk
  obtain ⟨i, hi, rfl⟩ := List.mem_map.1 hk
  have hi := List.mem_range.1 hi
  have := hv i hi
  omega

theorem rightBins_inRange (g : Genotype) (hv : InRange g) :
    ∀ k ∈ rightBins g, 0 ≤ k ∧ k < ((g.length * 2 - 1 : Nat) : Int) := by
  intro k hk
  obtain ⟨i, hi, rfl⟩ := List.mem_map.1 hk
  have hi := List.mem_range.1 hi
  have := hv i hi
  omega

/-- With gene values in range, `Fitness` is zero exactly when no left bin and no right bin
holds two rows. -/
theorem Fitness_zero_iff_nodup (g : Genotype) (hv : InRange g) :
    Fitness g = 0 ↔ (leftBins g).Nodup ∧ (rightBins g).Nodup := by
  rw [Fitness_eq_sum]
  have h1 := sum_collisionsOf_nonneg ((List.range (g.length * 2 - 1)).map
    (fun j : Nat => ((leftBins g).count (j : Int) : Int)))
  have h2 := sum_collisionsOf_nonneg ((List.range (g.length * 2 - 1)).map
    (fun j : Nat => ((rightBins g).count (j : Int) : Int)))
  rw [← slots_le_one_iff_nodup _ _ (leftBins_inRange g hv),
    ← slots_le_one_iff_nodup _ _ (rightBins_inRange g hv),
    ← sum_collisionsOf_eq_zero_iff, ← sum_collisionsOf_eq_zero_iff]
  constructor
  · intro h
    constructor <;> omega
  · rintro ⟨ha, hb⟩
    omega

theorem leftBins_nodup_iff (g : Genotype) :
    (leftBins g).Nodup ↔
      ∀ i j : Nat, i < g.length → j < g.length →
        (i : Int) + g.gene i = (j : Int) + g.gene j → i = j := by
  unfold leftBins
  rw [List.nodup_map_iff_inj_on (List.nodup_range _)]
  simp only [List.mem_range]
  exact ⟨fun h i j hi hj e => h i hi j hj e, fun h i hi j hj e => h i j hi hj e⟩

theorem rightBins_nodup_iff (g : Genotype) :
    (rightBins g).Nodup ↔
      ∀ i j : Nat, i < g.length → j < g.length →
        (i : Int) + (((g.length : Int) - 1) - g.gene i) =
          (j : Int) + (((g.length : Int) - 1) - g.gene j) → i = j := by
  unfold rightBins
  rw [List.nodup_map_iff_inj_on (List.nodup_range _)]
  simp only [List.mem_range]
  exact ⟨fun h i j hi hj e => h i hi j hj e, fun h i hi j hj e => h i j hi hj e⟩

/-- With gene values in range, `Fitness` is zero exactly when no two rows collide. -/
theorem Fitness_zero_iff_not_hasCollision (g : Genotype) (hv : InRange g) :
    Fitness g = 0 ↔ ¬ HasCollision g := by
  rw [Fitness_zero_iff_nodup g hv, leftBins_nodup_iff, rightBins_nodup_iff]
  unfold HasCollision
  constructor
  · rintro ⟨hL, hR⟩ ⟨i, j, hi, hj, hne, habs⟩
    rcases (abs_eq_abs.1 habs) with h | h
    · exact hne (hR i j hi hj (by omega))
    · exact hne (hL i j hi hj (by omega))
  · intro h
    constructor
    · intro i j hi hj e
      by_contra hne
      exact h ⟨i, j, hi, hj, hne, abs_eq_abs.2 (Or.inr (by omega))⟩
    · intro i j hi hj e
      by_contra hne
      exact h ⟨i, j, hi, hj, hne, abs_eq_abs.2 (Or.inl (by omega))⟩

/-- C1. For every gene sequence of length `N ≥ 1` whose values lie in `[0, N-1]`,
`Genotype::Fitness` returns 0 if and only if there are no two positions `i ≠ j` with
`|gene[i] - gene[j]| = |i - j|`. -/
theorem Fitness_eq_zero_iff (g : Genotype) (_hN : 1 ≤ g.length) (hv : InRange g) :
    Fitness g = 0 ↔ ¬ HasCollision g :=
  Fitness_zero_iff_not_hasCollision g hv

/-- Witness: the board `<1, 3, 0, 2>`. -/
theorem Fitness_eq_zero_iff_witness :
    (1 ≤ (ofGene [1, 3, 0, 2]).length ∧ InRange (ofGene [1, 3, 0, 2])) ∧
      (Fitness (ofGene [1, 3, 0, 2]) = 0 ↔ ¬ HasCollision (ofGene [1, 3, 0, 2])) :=
  ⟨⟨by decide, by decide⟩, Fitness_eq_zero_iff (ofGene [1, 3, 0, 2]) (by decide) (by decide)⟩

/-! ### Permutations -/

theorem iota_nodup (N : Nat) : (iota N).Nodup := by
  unfold iota
  exact (List.nodup_range N).map (fun a b h => by simpa using h)

theorem mem_iota (N : Nat) (a : Int) : a ∈ iota N ↔ 0 ≤ a ∧ a < (N : Int) := by
  unfold iota
  rw [List.mem_map]
  constructor
  · rintro ⟨i, hi, rfl⟩
    have := List.mem_range.1 hi
    simp only [Int.ofNat_eq_coe]
    omega
  · rintro ⟨h0, hN⟩
    exact ⟨a.toNat, List.mem_range.2 (by omega), by simp only [Int.ofNat_eq_coe]; omega⟩

theorem length_iota (N : Nat) : (iota N).length = N := by
  simp [iota]

/-- The two ways of saying that a gene sequence is a permutation of `{0, …, N-1}`. -/
theorem isPermutation_iff_perm (N : Nat) (gene : List Int) :
    IsPermutation N gene ↔ gene.Perm (iota N) := by
  constructor
  · rintro ⟨hlen, hcount⟩
    have hsub : iota N ⊆ gene := by
      intro a ha
      obtain ⟨h0, hN⟩ := (mem_iota N a).1 ha
      have h1 := hcount a.toNat (by omega)
      rw [Int.toNat_of_nonneg h0] at h1
      exact List.count_pos_iff.1 (by omega)
    have hsp : (iota N).Subperm gene := List.subperm_of_subset (iota_nodup N) hsub
    exact (hsp.perm_of_length_le (by rw [hlen, length_iota])).symm
  · intro h
    refine ⟨by rw [h.length_eq, length_iota], fun v hv => ?_⟩
    rw [h.count_eq]
    exact List.count_eq_one_of_mem (iota_nodup N) ((mem_iota N v).2 (by omega))

theorem IsPermutation.nodup {N : Nat} {gene : List Int} (h : IsPermutation N gene) :
    gene.Nodup :=
  ((isPermutation_iff_perm N gene).1 h).nodup_iff.2 (iota_nodup N)

theorem IsPermutation.mem_iff {N : Nat} {gene : List Int} (h : IsPermutation N gene) (a : Int) :
    a ∈ gene ↔ 0 ≤ a ∧ a < (N : Int) := by
  rw [((isPermutation_iff_perm N gene).1 h).mem_iff, mem_iota]

theorem isPermutation_of_perm {N : Nat} {gene gene' : List Int} (h : IsPermutation N gene)
    (hp : gene'.Perm gene) : IsPermutation N gene' :=
  (isPermutation_iff_perm N gene').2 (hp.trans ((isPermutation_iff_perm N gene).1 h))

/-! ### Crossover -/

/-- The duplicate-removing loop of `crossover` erases from each copy the first `p` genes of
the other parent. -/
theorem crossover_loop (a b : Genotype) (A B : List Int) (p : Nat)
    (ha : p ≤ a._gene.length) (hb : p ≤ b._gene.length) :
    (List.range p).foldl
        (fun (s : List Int × List Int) (i : Nat) => (s.1.erase (b.gene i), s.2.erase (a.gene i)))
        (A, B) =
      (A.diff (b._gene.take p), B.diff (a._gene.take p)) := by
  induction p with
  | zero => simp
  | succ p ih =>
    rw [List.range_succ, List.foldl_append, ih (by omega) (by omega)]
    have ea : a._gene[p]? = some (a.gene p) := by
      rw [List.getElem?_eq_getElem (by omega)]
      simp [gene, List.getD_eq_getElem?_getD, List.getElem?_eq_getElem (show p < a._gene.length by omega)]
    have eb : b._gene[p]? = some (b.gene p) := by
      rw [List.getElem?_eq_getElem (by omega)]
      simp [gene, List.getD_eq_getElem?_getD, List.getElem?_eq_getElem (show p < b._gene.length by omega)]
    simp only [List.foldl_cons, List.foldl_nil, List.take_succ, ea, eb, Option.toList_some,
      List.diff_append, List.diff_cons, List.diff_nil]

/-- The genes of the two children of `crossover`, for parents of equal length: the first `p`
genes of one parent, then the other parent without those genes. -/
theorem crossover_genes (a b : Genotype) (r : Randomizer)
    (hlen : b._gene.length = a._gene.length) (hpos : 0 < a._gene.length) :
    (a.crossover b r).1 =
      [ofGene (a._gene.take (r 0 % a._gene.length) ++
          b._gene.diff (a._gene.take (r 0 % a._gene.length))),
       ofGene (b._gene.take (r 0 % a._gene.length) ++
          a._gene.diff (b._gene.take (r 0 % a._gene.length)))] := by
  have hp : r 0 % a._gene.length < a._gene.length := Nat.mod_lt _ hpos
  unfold crossover
  simp only [Randomizer.draw]
  rw [crossover_loop a b _ _ _ (by omega) (by omega)]

theorem crossover_engine (a b : Genotype) (r : Randomizer) :
    (a.crossover b r).2 = r.draw.2 := rfl

theorem ofGene_gene (genes : List Int) : (ofGene genes)._gene = genes := rfl

theorem ofGene_fitness (genes : List Int) : (ofGene genes)._fitness = Fitness (ofGene genes) := rfl

/-- A starting piece of one permutation, followed by another permutation of the same values
without that piece, is a permutation again. -/
theorem take_append_diff_perm {N : Nat} {a b : List Int} (ha : IsPermutation N a)
    (hb : IsPermutation N b) (p : Nat) : IsPermutation N (a.take p ++ b.diff (a.take p)) := by
  apply isPermutation_of_perm hb
  apply List.subperm_append_diff_self_of_count_le
  intro x _
  have hab : a.Perm b :=
    ((isPermutation_iff_perm N a).1 ha).trans ((isPermutation_iff_perm N b).1 hb).symm
  rw [← hab.count_eq]
  exact (List.take_sublist p a).count_le x

/-- C2. For two candidates whose genes are permutations of `{0..N-1}` (`N ≥ 1`) and every
engine (so every draw, the cut point being the draw modulo `N`), `crossover` returns exactly two
children and the gene of each child is a permutation of `{0..N-1}`. -/
theorem crossover_closure (N : Nat) (self other : Genotype) (r : Randomizer) (hN : 1 ≤ N)
    (hs : IsPermutation N self._gene) (ho : IsPermutation N other._gene) :
    (self.crossover other r).1.length = 2 ∧
      ∀ child ∈ (self.crossover other r).1, IsPermutation N child._gene := by
  have hls : self._gene.length = N := hs.1
  have hlo : other._gene.length = N := ho.1
  rw [crossover_genes self other r (by omega) (by omega)]
  refine ⟨rfl, ?_⟩
  intro child hc
  simp only [List.mem_cons, List.mem_singleton, List.not_mem_nil, or_false] at hc
  rcases hc with rfl | rfl
  · exact take_append_diff_perm hs ho _
  · exact take_append_diff_perm ho hs _

/-- Witness: parents `<0,1,2,3>` and `<3,2,1,0>`, every draw 2. -/
theorem crossover_closure_witness :
    (1 ≤ 4 ∧ IsPermutation 4 (ofGene [0, 1, 2, 3])._gene ∧
        IsPermutation 4 (ofGene [3, 2, 1, 0])._gene) ∧
      (((ofGene [0, 1, 2, 3]).crossover (ofGene [3, 2, 1, 0]) (fun _ => 2)).1.length = 2 ∧
        ∀ child ∈ ((ofGene [0, 1, 2, 3]).crossover (ofGene [3, 2, 1, 0]) (fun _ => 2)).1,
          IsPermutation 4 child._gene) :=
  ⟨⟨by decide, by decide, by decide⟩,
    crossover_closure 4 (ofGene [0, 1, 2, 3]) (ofGene [3, 2, 1, 0]) (fun _ => 2) (by decide)
      (by decide) (by decide)⟩

/-! ### Mutation -/

theorem mutate_gene (g : Genotype) (r : Randomizer) :
    (g.mutate r).1._gene =
      (g._gene.set (r 0 % g._gene.length) (g._gene.getD (r 1 % g._gene.length) 0)).set
        (r 1 % g._gene.length) (g._gene.getD (r 0 % g._gene.length) 0) := rfl

theorem mutate_fitness (g : Genotype) (r : Randomizer) :
    (g.mutate r).1._fitness = Fitness (g.mutate r).1 := rfl

theorem mutate_engine (g : Genotype) (r : Randomizer) :
    (g.mutate r).2 = r.draw.2.draw.2 := rfl

/-- Exchanging the entries at two positions of a list rearranges it. -/
theorem cons_set_perm (l : List Int) (j : Nat) (x : Int) (hj : j < l.length) :
    (l.getD j 0 :: l.set j x).Perm (x :: l) := by
  induction l generalizing j with
  | nil => simp at hj
  | cons z t ih =>
    cases j with
    | zero => exact List.Perm.swap _ _ _
    | succ j =>
      have hj' : j < t.length := by simpa using hj
      have h1 : (t.getD j 0 :: z :: t.set j x).Perm (z :: t.getD j 0 :: t.set j x) :=
        List.Perm.swap _ _ _
      have h2 : (z :: t.getD j 0 :: t.set j x).Perm (z :: x :: t) :=
        List.Perm.cons z (ih j hj')
      exact (h1.trans h2).trans (List.Perm.swap _ _ _)

theorem swap_perm (l : List Int) (a b : Nat) (ha : a < l.length) (hb : b < l.length) :
    ((l.set a (l.getD b 0)).set b (l.getD a 0)).Perm l := by
  induction l generalizing a b with
  | nil => simp at ha
  | cons h t ih =>
    cases a with
    | zero =>
      cases b with
      | zero => simp
      | succ j =>
        have hj : j < t.length := by simpa using hb
        simpa using cons_set_perm t j h hj
    | succ i =>
      have hi : i < t.length := by simpa using ha
      cases b with
      | zero => simpa using cons_set_perm t i h hi
      | succ j =>
        have hj : j < t.length := by simpa using hb
        simpa using ih i j hi hj

theorem swap_getD (l : List Int) (a b i : Nat) (ha : a < l.length) (hb : b < l.length) :
    ((l.set a (l.getD b 0)).set b (l.getD a 0)).getD i 0 =
      if i = b then l.getD a 0 else if i = a then l.getD b 0 else l.getD i 0 := by
  simp only [List.getD_eq_getElem?_getD, List.getElem?_set, List.length_set]
  by_cases h1 : b = i
  · subst h1
    simp [hb]
  · by_cases h2 : a = i
    · subst h2
      simp [h1, ha, Ne.symm h1]
    · simp [h1, h2, Ne.symm h1, Ne.symm h2]

/-- C3. For a candidate whose gene is a permutation of `{0..N-1}` (`N ≥ 1`) and every engine
(so every pair of draws), `mutate()` yields a permutation of `{0..N-1}` in which the values at
the two chosen positions are exchanged and every other position is unchanged, so that at most
two positions differ; when the two positions coincide the gene is unchanged. -/
theorem mutate_closure (N : Nat) (g : Genotype) (r : Randomizer) (hN : 1 ≤ N)
    (hp : IsPermutation N g._gene) :
    IsPermutation N (g.mutate r).1._gene ∧
      (g.mutate r).1.gene (r 0 % N) = g.gene (r 1 % N) ∧
      (g.mutate r).1.gene (r 1 % N) = g.gene (r 0 % N) ∧
      (∀ i : Nat, i ≠ r 0 % N → i ≠ r 1 % N → (g.mutate r).1.gene i = g.gene i) ∧
      ((List.range N).filter (fun i => decide ((g.mutate r).1.gene i ≠ g.gene i))).length ≤ 2 ∧
      (r 0 % N = r 1 % N → (g.mutate r).1._gene = g._gene) := by
  have hlen : g._gene.length = N := hp.1
  have hA : r 0 % N < g._gene.length := by rw [hlen]; exact Nat.mod_lt _ (by omega)
  have hB : r 1 % N < g._gene.length := by rw [hlen]; exact Nat.mod_lt _ (by omega)
  have hgene : ∀ i : Nat, (g.mutate r).1.gene i =
      if i = r 1 % N then g.gene (r 0 % N) else if i = r 0 % N then g.gene (r 1 % N)
      else g.gene i := by
    intro i
    unfold gene
    rw [mutate_gene, hlen]
    exact swap_getD g._gene _ _ i hA hB
  have hother : ∀ i : Nat, i ≠ r 0 % N → i ≠ r 1 % N → (g.mutate r).1.gene i = g.gene i := by
    intro i h0 h1
    rw [hgene, if_neg h1, if_neg h0]
  refine ⟨?_, ?_, ?_, hother, ?_, ?_⟩
  · apply isPermutation_of_perm hp
    rw [mutate_gene, hlen]
    exact swap_perm g._gene _ _ hA hB
  · rw [hgene]
    by_cases h : r 0 % N = r 1 % N
    · rw [if_pos h, h]
    · rw [if_neg h, if_pos rfl]
  · rw [hgene, if_pos rfl]
  · have hnd : ((List.range N).filter
        (fun i => decide ((g.mutate r).1.gene i ≠ g.gene i))).Nodup :=
      (List.nodup_range N).filter _
    have hsub : (List.range N).filter (fun i => decide ((g.mutate r).1.gene i ≠ g.gene i)) ⊆
        [r 0 % N, r 1 % N] := by
      intro i hi
      have hne : (g.mutate r).1.gene i ≠ g.gene i := by
        simpa using (List.mem_filter.1 hi).2
      by_cases h0 : i = r 0 % N
      · simp [h0]
      · by_cases h1 : i = r 1 % N
        · simp [h1]
        · exact absurd (hother i h0 h1) hne
    exact (List.subperm_of_subset hnd hsub).length_le
  · intro h
    rw [mutate_gene, hlen, ← h]
    apply List.ext_getElem?
    intro i
    simp only [List.getElem?_set, List.length_set]
    by_cases hi : r 0 % N = i
    · subst hi
      simp [hA, List.getD_eq_getElem?_getD, List.getElem?_eq_getElem hA]
    · simp [hi]

/-- Witness: the gene `<0,1,2,3,4>` with the draws 1, 2, 3, …. -/
theorem mutate_closure_witness :
    (1 ≤ 5 ∧ IsPermutation 5 (ofGene [0, 1, 2, 3, 4])._gene) ∧
      (IsPermutation 5 ((ofGene [0, 1, 2, 3, 4]).mutate (fun k => k + 1)).1._gene ∧
        ((ofGene [0, 1, 2, 3, 4]).mutate (fun k => k + 1)).1.gene (1 % 5) =
          (ofGene [0, 1, 2, 3, 4]).gene (2 % 5)) :=
  ⟨⟨by decide, by decide⟩,
    ⟨(mutate_closure 5 (ofGene [0, 1, 2, 3, 4]) (fun k => k + 1) (by decide) (by decide)).1,
      (mutate_closure 5 (ofGene [0, 1, 2, 3, 4]) (fun k => k + 1) (by decide) (by decide)).2.1⟩⟩

/-! ### The fitness score -/

theorem Fitness_congr {a b : Genotype} (h : a._gene = b._gene) : Fitness a = Fitness b := by
  unfold Fitness length gene
  rw [h]

theorem Consistent.nonneg {g : Genotype} (h : Consistent g) : 0 ≤ g._fitness := by
  unfold Consistent at h
  rw [h]
  exact Fitness_nonneg g

theorem ofGene_consistent (genes : List Int) : Consistent (ofGene genes) := rfl

theorem mutate_consistent (g : Genotype) (r : Randomizer) : Consistent (g.mutate r).1 := by
  unfold Consistent
  rw [mutate_fitness]

theorem denominator_pos {f : Int} (h : 0 ≤ f) : (0 : ℚ) < (f : ℚ) + Epsilon := by
  have h1 : (0 : ℚ) ≤ (f : ℚ) := by exact_mod_cast h
  have h2 : (0 : ℚ) < Epsilon := by norm_num [Epsilon]
  linarith

/-- The score is at least 1 exactly when the collision count is 0. -/
theorem one_le_score_iff (f : Int) (h : 0 ≤ f) : (1 : ℚ) ≤ 1 / ((f : ℚ) + Epsilon) ↔ f = 0 := by
  rw [one_le_div₀ (denominator_pos h)]
  constructor
  · intro hle
    by_contra hne
    have h1 : (1 : Int) ≤ f := by omega
    have h2 : (1 : ℚ) ≤ (f : ℚ) := by exact_mod_cast h1
    have h3 : (0 : ℚ) < Epsilon := by norm_num [Epsilon]
    linarith
  · rintro rfl
    norm_num [Epsilon]

/-- Among non-negative collision counts, a higher score is a lower count. -/
theorem fitness_le_iff {a b : Genotype} (ha : 0 ≤ a._fitness) (hb : 0 ≤ b._fitness) :
    a.fitness ≤ b.fitness ↔ b._fitness ≤ a._fitness := by
  unfold fitness
  rw [one_div_le_one_div (denominator_pos ha) (denominator_pos hb)]
  constructor
  · intro h
    have : (b._fitness : ℚ) ≤ (a._fitness : ℚ) := by linarith
    exact_mod_cast this
  · intro h
    have : (b._fitness : ℚ) ≤ (a._fitness : ℚ) := by exact_mod_cast h
    linarith

/-- C9. For every candidate with cached collision count `rawFitness ≥ 0`, the score
`fitness() = 1 / (rawFitness + Epsilon)`, `Epsilon = 0.0001`, taken over the rationals,
satisfies `fitness() ≥ 1` if and only if `rawFitness = 0`. -/
theorem fitness_ge_one_iff (g : Genotype) (h : 0 ≤ g._fitness) :
    (Epsilon = 1 / 10000 ∧ g.fitness = 1 / ((g._fitness : ℚ) + Epsilon)) ∧
      (g.fitness ≥ 1 ↔ g._fitness = 0) :=
  ⟨⟨rfl, rfl⟩, one_le_score_iff g._fitness h⟩

/-- Witness: the board `<0, 1, 2>`, whose collision count is 4. -/
theorem fitness_ge_one_iff_witness :
    0 ≤ (ofGene [0, 1, 2])._fitness ∧
      ((ofGene [0, 1, 2]).fitness ≥ 1 ↔ (ofGene [0, 1, 2])._fitness = 0) :=
  ⟨by decide, (fitness_ge_one_iff (ofGene [0, 1, 2]) (by decide)).2⟩

/-! ### Mating -/

/-- The children of `crossover` of two permutation parents are two valid candidates. -/
theorem crossover_valid {N : Nat} {a b : Genotype} (r : Randomizer) (hN : 1 ≤ N)
    (ha : IsPermutation N a._gene) (hb : IsPermutation N b._gene) :
    ∃ cA cB : Genotype, (a.crossover b r).1 = [cA, cB] ∧ Valid N cA ∧ Valid N cB := by
  have hla : a._gene.length = N := ha.1
  have hlb : b._gene.length = N := hb.1
  exact ⟨_, _, crossover_genes a b r (by omega) (by omega),
    ⟨take_append_diff_perm ha hb _, ofGene_consistent _⟩,
    ⟨take_append_diff_perm hb ha _, ofGene_consistent _⟩⟩

/-- The gene of a permutation candidate after `mutate()` is a permutation. -/
theorem mutate_isPermutation {N : Nat} {g : Genotype} (r : Randomizer) (hN : 1 ≤ N)
    (hp : IsPermutation N g._gene) : IsPermutation N (g.mutate r).1._gene := by
  have hlen : g._gene.length = N := hp.1
  apply isPermutation_of_perm hp
  rw [mutate_gene, hlen]
  exact swap_perm g._gene _ _ (by rw [hlen]; exact Nat.mod_lt _ (by omega))
    (by rw [hlen]; exact Nat.mod_lt _ (by omega))

theorem mutate_valid {N : Nat} {g : Genotype} (r : Randomizer) (hN : 1 ≤ N)
    (hp : IsPermutation N g._gene) : Valid N (g.mutate r).1 :=
  ⟨mutate_isPermutation r hN hp, mutate_consistent g r⟩

/-- What `mate` returns when `crossover` returns the two children `cA`, `cB`. -/
theorem mate_of_crossover {a b cA cB : Genotype} {r : Randomizer}
    (hc : (a.crossover b r).1 = [cA, cB]) :
    (a.mate b r).1 =
      if mutationChance (r 1) then
        [(cA.mutate r.draw.2.draw.2).1, (cB.mutate (cA.mutate r.draw.2.draw.2).2).1]
      else [cA, cB] := by
  unfold mate
  simp only [hc, crossover_engine]
  have h1 : r.draw.2.draw.1 = r 1 := rfl
  rw [h1]
  by_cases hm : mutationChance (r 1) = true
  · simp [hm]
  · simp [hm]

/-- The children of `mate` of two permutation parents are two valid candidates. -/
theorem mate_valid {N : Nat} {a b : Genotype} (r : Randomizer) (hN : 1 ≤ N)
    (ha : IsPermutation N a._gene) (hb : IsPermutation N b._gene) :
    (a.mate b r).1.length = 2 ∧ ∀ child ∈ (a.mate b r).1, Valid N child := by
  obtain ⟨cA, cB, hc, hA, hB⟩ := crossover_valid r hN ha hb
  rw [mate_of_crossover hc]
  by_cases hm : mutationChance (r 1) = true
  · rw [if_pos hm]
    refine ⟨rfl, ?_⟩
    intro child hmem
    simp only [List.mem_cons, List.mem_singleton, List.not_mem_nil, or_false] at hmem
    rcases hmem with rfl | rfl
    · exact mutate_valid _ hN hA.1
    · exact mutate_valid _ hN hB.1
  · rw [if_neg hm]
    refine ⟨rfl, ?_⟩
    intro child hmem
    simp only [List.mem_cons, List.mem_singleton, List.not_mem_nil, or_false] at hmem
    rcases hmem with rfl | rfl
    · exact hA
    · exact hB

/-! ### The random constructor -/

theorem shuffleLoop_perm (i : Nat) (gene : List Int) (r : Randomizer)
    (hi : i < gene.length ∨ i = 0) : (shuffleLoop i gene r).1.Perm gene := by
  induction i generalizing gene r with
  | zero => exact List.Perm.refl _
  | succ i ih =>
    have hlt : i + 1 < gene.length := by omega
    have hj : r.draw.1 % (i + 2) < gene.length := by
      have := Nat.mod_lt r.draw.1 (show 0 < i + 2 by omega)
      omega
    unfold shuffleLoop
    have hs := swap_perm gene (i + 1) (r.draw.1 % (i + 2)) hlt hj
    exact (ih _ r.draw.2 (Or.inl (by rw [hs.length_eq]; omega))).trans hs

theorem shuffle_perm (gene : List Int) (r : Randomizer) : (shuffle gene r).1.Perm gene := by
  unfold shuffle
  apply shuffleLoop_perm
  by_cases h : gene.length = 0
  · exact Or.inr (by omega)
  · exact Or.inl (by omega)

/-- The constructor `Genotype(geneLength)` makes a valid candidate. -/
theorem random_valid (N : Nat) (r : Randomizer) : Valid N (random N r).1 :=
  ⟨(isPermutation_iff_perm N _).2 (shuffle_perm (iota N) r), ofGene_consistent _⟩

end Genotype
end Evolution

namespace Evolution

/-! ### Sorting and selection -/

theorem sort_perm (comp : Genotype → Genotype → Bool) (l : Population) :
    (sort comp l).Perm l :=
  List.perm_insertionSort _ l

theorem mem_sort (comp : Genotype → Genotype → Bool) (l : Population) (c : Genotype) :
    c ∈ sort comp l ↔ c ∈ l :=
  (sort_perm comp l).mem_iff

theorem length_sort (comp : Genotype → Genotype → Bool) (l : Population) :
    (sort comp l).length = l.length :=
  (sort_perm comp l).length_eq

theorem gt_eq_false_iff (a b : Genotype) : Genotype.gt b a = false ↔ b.fitness ≤ a.fitness := by
  unfold Genotype.gt
  simp

/-- Sorting by `a > b` leaves the scores in non-increasing order. -/
theorem sort_gt_sorted (l : Population) :
    (sort Genotype.gt l).Pairwise (fun a b => b.fitness ≤ a.fitness) := by
  haveI : IsTotal Genotype (fun a b => Genotype.gt b a = false) :=
    ⟨fun a b => by
      rw [gt_eq_false_iff, gt_eq_false_iff]
      exact le_total _ _⟩
  haveI : IsTrans Genotype (fun a b => Genotype.gt b a = false) :=
    ⟨fun a b c hab hbc => by
      rw [gt_eq_false_iff] at hab hbc ⊢
      exact le_trans hbc hab⟩
  have h := List.sorted_insertionSort (fun a b => Genotype.gt b a = false) l
  exact List.Pairwise.imp (fun {a b} hab => (gt_eq_false_iff a b).1 hab) h

/-- After sorting by `a > b` and keeping the first `k ≥ 1`, the first candidate is kept and
no candidate of the list beats it. -/
theorem head_take_sort_max (l : Population) (k : Nat) (hk : 1 ≤ k) (hl : l ≠ []) :
    ((sort Genotype.gt l).take k).headD default ∈ (sort Genotype.gt l).take k ∧
      ∀ c ∈ l, c.fitness ≤ (((sort Genotype.gt l).take k).headD default).fitness := by
  have hs := sort_gt_sorted l
  have hm := mem_sort Genotype.gt l
  have hlen := length_sort Genotype.gt l
  generalize sort Genotype.gt l = s at hs hm hlen
  cases s with
  | nil =>
    have : l.length = 0 := by simpa using hlen.symm
    exact absurd (List.length_eq_zero.1 this) hl
  | cons h t =>
    obtain ⟨k, rfl⟩ : ∃ j, k = j + 1 := ⟨k - 1, by omega⟩
    simp only [List.take_succ_cons, List.headD_cons]
    refine ⟨List.mem_cons_self _ _, fun c hc => ?_⟩
    rcases List.mem_cons.1 ((hm c).2 hc) with rfl | hct
    · exact le_refl _
    · exact (List.pairwise_cons.1 hs).1 c hct

theorem top3_mem (c0 c1 c2 : Genotype) : top3 c0 c1 c2 = c0 ∨ top3 c0 c1 c2 = c1 ∨
    top3 c0 c1 c2 = c2 := by
  unfold top3
  by_cases h01 : c0.lt c1 = true
  · by_cases h12 : c1.lt c2 = true
    · simp [h01, h12]
    · simp [h01, h12]
  · by_cases h02 : c0.lt c2 = true
    · simp [h01, h02]
    · simp [h01, h02]

theorem getD_mod_mem (population : Population) (x : Nat) (hp : population ≠ []) :
    population.getD (x % population.length) default ∈ population := by
  have hpos : 0 < population.length := List.length_pos.2 hp
  have hlt : x % population.length < population.length := Nat.mod_lt _ hpos
  rw [List.getD_eq_getElem _ _ hlt]
  exact List.getElem_mem _

theorem pickParent_mem (population : Population) (r : Randomizer) (hp : population ≠ []) :
    (pickParent population r).1 ∈ population := by
  unfold pickParent
  simp only []
  rcases top3_mem (population.getD (r.draw.1 % population.length) default)
      (population.getD (r.draw.2.draw.1 % population.length) default)
      (population.getD (r.draw.2.draw.2.draw.1 % population.length) default) with h | h | h <;>
    rw [h] <;> exact getD_mod_mem population _ hp

theorem pickParents_spec (population : Population) (hp : population ≠ []) (n : Nat)
    (parents : Population) (r : Randomizer) :
    (pickParents population n parents r).1.length = parents.length + n ∧
      ∀ c ∈ (pickParents population n parents r).1, c ∈ parents ∨ c ∈ population := by
  induction n generalizing parents r with
  | zero => exact ⟨rfl, fun c hc => Or.inl hc⟩
  | succ n ih =>
    unfold pickParents
    obtain ⟨h1, h2⟩ := ih (parents ++ [(pickParent population r).1]) (pickParent population r).2
    refine ⟨by rw [h1, List.length_append, List.length_singleton]; omega, fun c hc => ?_⟩
    rcases h2 c hc with h | h
    · rcases List.mem_append.1 h with h | h
      · exact Or.inl h
      · rw [List.mem_singleton.1 h]
        exact Or.inr (pickParent_mem population r hp)
    · exact Or.inr h

/-- The parents that `_extractParents` returns: an even number of them, `parentCount` rounded
up, each one a member of the population. -/
theorem _extractParents_spec (population : Population) (hp : population ≠ [])
    (parentCount : Nat) (r : Randomizer) :
    (_extractParents population parentCount r).1.length =
        (if parentCount % 2 ≠ 0 then parentCount + 1 else parentCount) ∧
      ∀ c ∈ (_extractParents population parentCount r).1, c ∈ population := by
  unfold _extractParents
  simp only []
  obtain ⟨h1, h2⟩ := pickParents_spec population hp
    (if parentCount % 2 ≠ 0 then parentCount + 1 else parentCount) [] r
  refine ⟨by rw [length_sort, h1]; simp, fun c hc => ?_⟩
  rcases h2 c ((mem_sort _ _ c).1 hc) with h | h
  · simp at h
  · exact h

/-! ### One generation -/

theorem breed_succ (parents : Population) (k : Nat) (population : Population)
    (r : Randomizer) :
    breed parents (k + 1) population r =
      ((breed parents k population r).1 ++
          ((parents.getD (k * 2) default).mate (parents.getD (k * 2 + 1) default)
            (breed parents k population r).2).1,
        ((parents.getD (k * 2) default).mate (parents.getD (k * 2 + 1) default)
            (breed parents k population r).2).2) := by
  unfold breed
  rw [List.range_succ, List.foldl_append]
  rfl

theorem getD_mem (l : Population) (i : Nat) (hi : i < l.length) : l.getD i default ∈ l := by
  rw [List.getD_eq_getElem _ _ hi]
  exact List.getElem_mem _

/-- The loop of `evolve` appends two valid children per round to the population. -/
theorem breed_spec {N : Nat} (hN : 1 ≤ N) (parents : Population)
    (hpar : ∀ c ∈ parents, Genotype.IsPermutation N c._gene) (rounds : Nat)
    (hr : rounds * 2 ≤ parents.length) (population : Population) (r : Randomizer) :
    ∃ children : Population,
      (breed parents rounds population r).1 = population ++ children ∧
        children.length = rounds * 2 ∧ ∀ c ∈ children, Genotype.Valid N c := by
  induction rounds with
  | zero => exact ⟨[], by simp [breed], rfl, by simp⟩
  | succ k ih =>
    obtain ⟨children, h1, h2, h3⟩ := ih (by omega)
    have hA := hpar _ (getD_mem parents (k * 2) (by omega))
    have hB := hpar _ (getD_mem parents (k * 2 + 1) (by omega))
    obtain ⟨m1, m2⟩ := Genotype.mate_valid (breed parents k population r).2 hN hA hB
    refine ⟨children ++ ((parents.getD (k * 2) default).mate (parents.getD (k * 2 + 1) default)
      (breed parents k population r).2).1, ?_, ?_, ?_⟩
    · rw [breed_succ, h1, List.append_assoc]
    · rw [List.length_append, h2, m1]
      omega
    · intro c hc
      rcases List.mem_append.1 hc with h | h
      · exact h3 c h
      · exact m2 c h

theorem evolve_population (e : Evolution) (r : Randomizer) :
    (e.evolve r).1._population =
      (sort Genotype.gt
        (breed (_extractParents e._population
              (Int.toNat ⌊(e._populationSize : ℚ) * DefaultParentPercent⌋) r).1
            ((_extractParents e._population
              (Int.toNat ⌊(e._populationSize : ℚ) * DefaultParentPercent⌋) r).1.length / 2)
            e._population
            (_extractParents e._population
              (Int.toNat ⌊(e._populationSize : ℚ) * DefaultParentPercent⌋) r).2).1).take
        e._populationSize := rfl

theorem evolve_populationSize (e : Evolution) (r : Randomizer) :
    (e.evolve r).1._populationSize = e._populationSize := rfl

theorem evolve_progress (e : Evolution) (r : Randomizer) :
    (e.evolve r).1._progress = e._progress + 1 := rfl

theorem evolve_progressLimit (e : Evolution) (r : Randomizer) :
    (e.evolve r).1._progressLimit = e._progressLimit := rfl

theorem Invariant.populationSize_pos {N : Nat} {e : Evolution} (h : Invariant N e) :
    1 ≤ e._populationSize := by
  rw [h.1]
  split <;> omega

theorem Invariant.population_ne_nil {N : Nat} {e : Evolution} (h : Invariant N e) :
    e._population ≠ [] := by
  have h1 := h.populationSize_pos
  have h2 := h.2.1
  intro hnil
  rw [hnil] at h2
  simp at h2
  omega

/-- What one `evolve()` call does to a population in the state of the specification: a
positive even number of valid children is appended, and the sorted whole is cut back. -/
theorem evolve_grown {N : Nat} (hN : 1 ≤ N) {e : Evolution} (h : Invariant N e)
    (r : Randomizer) :
    ∃ children : Population,
      (e.evolve r).1._population =
          (sort Genotype.gt (e._population ++ children)).take e._populationSize ∧
        (∀ c ∈ children, Genotype.Valid N c) ∧
        children.length =
          (if Int.toNat ⌊(e._populationSize : ℚ) * DefaultParentPercent⌋ % 2 ≠ 0 then
            Int.toNat ⌊(e._populationSize : ℚ) * DefaultParentPercent⌋ + 1
          else Int.toNat ⌊(e._populationSize : ℚ) * DefaultParentPercent⌋) := by
  obtain ⟨p1, p2⟩ := _extractParents_spec e._population h.population_ne_nil
    (Int.toNat ⌊(e._populationSize : ℚ) * DefaultParentPercent⌋) r
  have hpar : ∀ c ∈ (_extractParents e._population
      (Int.toNat ⌊(e._populationSize : ℚ) * DefaultParentPercent⌋) r).1,
      Genotype.IsPermutation N c._gene := fun c hc => (h.2.2.1 c (p2 c hc)).1
  obtain ⟨children, c1, c2, c3⟩ := breed_spec hN _ hpar
    ((_extractParents e._population
      (Int.toNat ⌊(e._populationSize : ℚ) * DefaultParentPercent⌋) r).1.length / 2)
    (by omega) e._population
    (_extractParents e._population
      (Int.toNat ⌊(e._populationSize : ℚ) * DefaultParentPercent⌋) r).2
  refine ⟨children, by rw [evolve_population, c1], c3, ?_⟩
  rw [c2, p1]
  split <;> omega

/-- One `evolve()` call keeps the state of the specification. -/
theorem evolve_invariant {N : Nat} (hN : 1 ≤ N) {e : Evolution} (h : Invariant N e)
    (r : Randomizer) : Invariant N (e.evolve r).1 := by
  obtain ⟨children, hpop, hvalid, -⟩ := evolve_grown hN h r
  have hne : e._population ++ children ≠ [] := by
    intro hnil
    exact h.population_ne_nil (List.append_eq_nil.1 hnil).1
  obtain ⟨-, hmax⟩ := head_take_sort_max (e._population ++ children) e._populationSize
    h.populationSize_pos hne
  have hmem : ∀ c ∈ (e.evolve r).1._population, c ∈ e._population ++ children := by
    intro c hc
    rw [hpop] at hc
    exact (mem_sort _ _ c).1 (List.mem_of_mem_take hc)
  refine ⟨h.1, ?_, ?_, ?_⟩
  · rw [evolve_populationSize, hpop, List.length_take, length_sort, List.length_append, h.2.1]
    omega
  · intro c hc
    rcases List.mem_append.1 (hmem c hc) with hc | hc
    · exact h.2.2.1 c hc
    · exact hvalid c hc
  · intro c hc
    unfold solution
    rw [hpop]
    exact hmax c (hmem c hc)

theorem headD_replicate (n : Nat) (hn : 1 ≤ n) (x : Genotype) :
    (List.replicate n x).headD default = x := by
  cases n with
  | zero => omega
  | succ n => rfl

/-- Construction puts the controller in the state of the specification. -/
theorem construct_invariant (N : Nat) (generationLimit : Int) (r seeded : Randomizer) :
    Invariant N (construct N generationLimit r seeded).1 := by
  unfold construct
  refine ⟨rfl, by simp, ?_, ?_⟩
  · intro c hc
    rw [List.eq_of_mem_replicate hc]
    exact Genotype.random_valid N r
  · intro c hc
    have hsize : 1 ≤ (if N > 10 then N * 10 else 100) := by split <;> omega
    rw [List.eq_of_mem_replicate hc]
    show _ ≤ (List.headD (List.replicate (if N > 10 then N * 10 else 100)
      (Genotype.random N r).1) default).fitness
    rw [headD_replicate _ hsize]

theorem Reachable.invariant {N : Nat} (hN : 1 ≤ N) {e : Evolution} (h : Reachable N e) :
    Invariant N e := by
  induction h with
  | construct generationLimit r seeded => exact construct_invariant N generationLimit r seeded
  | evolve r _ ih => exact evolve_invariant hN ih r

theorem Invariant.solution_mem {N : Nat} {e : Evolution} (h : Invariant N e) :
    e.solution ∈ e._population := by
  have hne := h.population_ne_nil
  unfold solution
  cases hp : e._population with
  | nil => exact absurd hp hne
  | cons c t => exact List.mem_cons_self _ _

theorem isPermutation_inRange {N : Nat} {g : Genotype}
    (h : Genotype.IsPermutation N g._gene) : Genotype.InRange g := by
  intro i hi
  have hlen : g._gene.length = N := h.1
  have hi' : i < g._gene.length := hi
  have hmem : g.gene i ∈ g._gene := by
    unfold Genotype.gene
    rw [List.getD_eq_getElem _ _ hi']
    exact List.getElem_mem _
  have := (h.mem_iff (g.gene i)).1 hmem
  have hl : g.length = N := hlen
  rw [hl]
  omega

/-- In the state of the specification, `solved()` holds exactly when some candidate of the
population has collision count 0. -/
theorem Invariant.solved_iff {N : Nat} {e : Evolution} (h : Invariant N e) :
    e.solved = true ↔ ∃ c ∈ e._population, Genotype.Fitness c = 0 := by
  have hsol := h.solution_mem
  have hcons : ∀ c ∈ e._population, c._fitness = Genotype.Fitness c := fun c hc => (h.2.2.1 c hc).2
  have hnn : ∀ c ∈ e._population, 0 ≤ c._fitness := fun c hc => (h.2.2.1 c hc).2.nonneg
  unfold solved
  rw [decide_eq_true_eq]
  constructor
  · intro hge
    refine ⟨e.solution, hsol, ?_⟩
    rw [← hcons _ hsol]
    exact (Genotype.one_le_score_iff _ (hnn _ hsol)).1 hge
  · rintro ⟨c, hc, hz⟩
    have hc0 : c._fitness = 0 := by rw [hcons c hc, hz]
    have h1 : (1 : ℚ) ≤ c.fitness := (Genotype.one_le_score_iff _ (hnn c hc)).2 hc0
    exact le_trans h1 (h.2.2.2 c hc)

/-- C4. In every state reachable from construction by any number of `evolve()` calls (board
size `N ≥ 1`, every engine), the gene of every candidate of the population is a permutation
of `{0..N-1}`. -/
theorem reachable_isPermutation (N : Nat) (e : Evolution) (hN : 1 ≤ N) (h : Reachable N e) :
    ∀ c ∈ e._population, Genotype.IsPermutation N c._gene :=
  fun c hc => ((h.invariant hN).2.2.1 c hc).1

/-- Witness: board size 4, two generations. -/
theorem reachable_isPermutation_witness :
    (1 ≤ 4 ∧
        Reachable 4 ((((construct 4 1000 (fun k => k) (fun k => 7 * k + 1)).1.evolve
          (fun k => 7 * k + 1)).1.evolve (fun k => k * k)).1)) ∧
      ∀ c ∈ ((((construct 4 1000 (fun k => k) (fun k => 7 * k + 1)).1.evolve
          (fun k => 7 * k + 1)).1.evolve (fun k => k * k)).1)._population,
        Genotype.IsPermutation 4 c._gene :=
  ⟨⟨by decide, Reachable.evolve _ (Reachable.evolve _ (Reachable.construct _ _ _))⟩,
    reachable_isPermutation 4 _ (by decide)
      (Reachable.evolve _ (Reachable.evolve _ (Reachable.construct _ _ _)))⟩

/-- C5. For every reachable state of the controller (board size `N ≥ 1`) and every engine,
after `evolve()` the population has exactly `populationSize` candidates, as it had before: the
children appended during the step are as many as the candidates that truncation removes. -/
theorem evolve_population_length (N : Nat) (e : Evolution) (r : Randomizer) (hN : 1 ≤ N)
    (h : Reachable N e) :
    e._population.length = e._populationSize ∧
      (e.evolve r).1._population.length = (e.evolve r).1._populationSize ∧
      (e.evolve r).1._populationSize = e._populationSize ∧
      e._populationSize = (if N > 10 then N * 10 else 100) ∧
      ∃ children : Population,
        (e.evolve r).1._population =
            (_extractNonSurvivors (e._population ++ children) e._populationSize).1 ∧
          (_extractNonSurvivors (e._population ++ children) e._populationSize).2.length =
            children.length := by
  have hi := h.invariant hN
  have hi' := evolve_invariant hN hi r
  refine ⟨hi.2.1, hi'.2.1, rfl, hi.1, ?_⟩
  obtain ⟨children, hpop, -, -⟩ := evolve_grown hN hi r
  refine ⟨children, hpop, ?_⟩
  unfold _extractNonSurvivors
  simp only [List.length_drop, length_sort, List.length_append, hi.2.1]
  omega

/-- Witness: board size 12, the second generation. -/
theorem evolve_population_length_witness :
    (1 ≤ 12 ∧
        Reachable 12 ((construct 12 1000 (fun k => k) (fun k => 7 * k + 1)).1.evolve
          (fun k => 7 * k + 1)).1) ∧
      ((((construct 12 1000 (fun k => k) (fun k => 7 * k + 1)).1.evolve
          (fun k => 7 * k + 1)).1.evolve (fun k => k * k)).1._population.length =
        (((construct 12 1000 (fun k => k) (fun k => 7 * k + 1)).1.evolve
          (fun k => 7 * k + 1)).1.evolve (fun k => k * k)).1._populationSize) :=
  ⟨⟨by decide, Reachable.evolve _ (Reachable.construct _ _ _)⟩,
    (evolve_population_length 12 _ (fun k => k * k) (by decide)
      (Reachable.evolve _ (Reachable.construct _ _ _))).2.1⟩

/-- C6. In every reachable state, `solution()`, which only reads the state, returns a
candidate of the population whose score no candidate of the population exceeds; and `solved()`
is true if and only if some candidate of the population has zero collisions. -/
theorem solution_is_best (N : Nat) (e : Evolution) (hN : 1 ≤ N) (h : Reachable N e) :
    e.solution ∈ e._population ∧
      (∀ c ∈ e._population, c.fitness ≤ e.solution.fitness) ∧
      (e.solved = true ↔ ∃ c ∈ e._population, Genotype.Fitness c = 0) ∧
      (e.solved = true ↔ ∃ c ∈ e._population, ¬ Genotype.HasCollision c) := by
  have hi := h.invariant hN
  refine ⟨hi.solution_mem, hi.2.2.2, hi.solved_iff, ?_⟩
  rw [hi.solved_iff]
  constructor
  · rintro ⟨c, hc, hz⟩
    exact ⟨c, hc, (Genotype.Fitness_zero_iff_not_hasCollision c
      (isPermutation_inRange (hi.2.2.1 c hc).1)).1 hz⟩
  · rintro ⟨c, hc, hz⟩
    exact ⟨c, hc, (Genotype.Fitness_zero_iff_not_hasCollision c
      (isPermutation_inRange (hi.2.2.1 c hc).1)).2 hz⟩

/-- Witness: board size 4 after one generation. -/
theorem solution_is_best_witness :
    (1 ≤ 4 ∧
        Reachable 4 ((construct 4 1000 (fun k => k) (fun k => 7 * k + 1)).1.evolve
          (fun k => 7 * k + 1)).1) ∧
      ((construct 4 1000 (fun k => k) (fun k => 7 * k + 1)).1.evolve
          (fun k => 7 * k + 1)).1.solution ∈
        ((construct 4 1000 (fun k => k) (fun k => 7 * k + 1)).1.evolve
          (fun k => 7 * k + 1)).1._population :=
  ⟨⟨by decide, Reachable.evolve _ (Reachable.construct _ _ _)⟩,
    (solution_is_best 4 _ (by decide) (Reachable.evolve _ (Reachable.construct _ _ _))).1⟩

/-- C7. For every reachable state and every engine, the best score of the population after
`evolve()` is at least the best score before it: no candidate of the old population beats the
new `solution()`, which is a best candidate of the new population; equivalently the smallest
collision count does not increase. -/
theorem evolve_best_monotone (N : Nat) (e : Evolution) (r : Randomizer) (hN : 1 ≤ N)
    (h : Reachable N e) :
    (∀ c ∈ e._population, c.fitness ≤ e.solution.fitness) ∧
      (e.evolve r).1.solution ∈ (e.evolve r).1._population ∧
      (∀ c ∈ (e.evolve r).1._population, c.fitness ≤ (e.evolve r).1.solution.fitness) ∧
      e.solution.fitness ≤ (e.evolve r).1.solution.fitness ∧
      (∀ c ∈ e._population, c.fitness ≤ (e.evolve r).1.solution.fitness) ∧
      (∀ c ∈ e._population, (e.evolve r).1.solution._fitness ≤ c._fitness) := by
  have hi := h.invariant hN
  have hi' := evolve_invariant hN hi r
  obtain ⟨children, hpop, -, -⟩ := evolve_grown hN hi r
  have hne : e._population ++ children ≠ [] := by
    intro hnil
    exact hi.population_ne_nil (List.append_eq_nil.1 hnil).1
  obtain ⟨-, hmax⟩ := head_take_sort_max (e._population ++ children) e._populationSize
    hi.populationSize_pos hne
  have hold : ∀ c ∈ e._population, c.fitness ≤ (e.evolve r).1.solution.fitness := by
    intro c hc
    unfold solution
    rw [hpop]
    exact hmax c (List.mem_append_left _ hc)
  refine ⟨hi.2.2.2, hi'.solution_mem, hi'.2.2.2, hold _ hi.solution_mem, hold, ?_⟩
  intro c hc
  exact (Genotype.fitness_le_iff (hi.2.2.1 c hc).2.nonneg
    (hi'.2.2.1 _ hi'.solution_mem).2.nonneg).1 (hold c hc)

/-- Witness: board size 4, the first generation. -/
theorem evolve_best_monotone_witness :
    (1 ≤ 4 ∧ Reachable 4 (construct 4 1000 (fun k => k) (fun k => 7 * k + 1)).1) ∧
      (construct 4 1000 (fun k => k) (fun k => 7 * k + 1)).1.solution.fitness ≤
        ((construct 4 1000 (fun k => k) (fun k => 7 * k + 1)).1.evolve
          (fun k => 7 * k + 1)).1.solution.fitness :=
  ⟨⟨by decide, Reachable.construct _ _ _⟩,
    (evolve_best_monotone 4 _ (fun k => 7 * k + 1) (by decide)
      (Reachable.construct _ _ _)).2.2.2.1⟩

/-! ### The search loop -/

theorem evolveTimes_succ (k : Nat) (e : Evolution) (r : Randomizer) :
    evolveTimes (k + 1) e r = evolveTimes k (e.evolve r).1 (e.evolve r).2 := rfl

theorem evolveTimes_progress (k : Nat) (e : Evolution) (r : Randomizer) :
    (evolveTimes k e r).1._progress = e._progress + k ∧
      (evolveTimes k e r).1._progressLimit = e._progressLimit := by
  induction k generalizing e r with
  | zero => exact ⟨by simp [evolveTimes], rfl⟩
  | succ k ih =>
    rw [evolveTimes_succ]
    obtain ⟨h1, h2⟩ := ih (e.evolve r).1 (e.evolve r).2
    rw [h1, h2, evolve_progress, evolve_progressLimit]
    exact ⟨by push_cast; omega, rfl⟩

theorem solving_lt {e : Evolution} (h : e.solving = true) : e._progress < e._progressLimit := by
  simp only [solving, progress, progressLimit, Bool.and_eq_true, decide_eq_true_eq] at h
  exact h.2

/-- One round of the loop of `resolve`. -/
theorem resolveLoop_unfold (e : Evolution) (r : Randomizer) :
    resolveLoop e r =
      if e.solving = true then resolveLoop (e.evolve r).1 (e.evolve r).2 else (e, r) := by
  unfold resolveLoop
  rw [whileLoop]

/-- The loop of `resolve` ends: it is some number `k` of `evolve()` calls that does not take
the progress beyond the limit, the controller is `solving()` before each of them and not
after the last. -/
theorem resolveLoop_spec (n : Nat) (e : Evolution) (r : Randomizer)
    (hn : (e._progressLimit - e._progress).toNat = n) :
    ∃ k : Nat, (e._progress + k ≤ e._progressLimit ∨ k = 0) ∧
      resolveLoop e r = evolveTimes k e r ∧
      (∀ j : Nat, j < k → (evolveTimes j e r).1.solving = true) ∧
      (evolveTimes k e r).1.solving = false := by
  induction n generalizing e r with
  | zero =>
    have hs : e.solving = false := by
      by_contra hs
      have := solving_lt (by simpa using hs)
      omega
    refine ⟨0, Or.inr rfl, ?_, fun j hj => absurd hj (by omega), hs⟩
    rw [resolveLoop_unfold, if_neg (by simp [hs])]
    rfl
  | succ n ih =>
    by_cases hs : e.solving = true
    · have hlt := solving_lt hs
      obtain ⟨k, h1, h2, h3, h4⟩ := ih (e.evolve r).1 (e.evolve r).2
        (by rw [evolve_progress, evolve_progressLimit]; omega)
      refine ⟨k + 1, Or.inl ?_, ?_, ?_, ?_⟩
      · rw [evolve_progress, evolve_progressLimit] at h1
        rcases h1 with h1 | h1
        · push_cast
          omega
        · subst h1
          push_cast
          omega
      · rw [resolveLoop_unfold, if_pos hs, h2, evolveTimes_succ]
      · intro j hj
        cases j with
        | zero => exact hs
        | succ j =>
          rw [evolveTimes_succ]
          exact h3 j (by omega)
      · rw [evolveTimes_succ]
        exact h4
    · refine ⟨0, Or.inr rfl, ?_, fun j hj => absurd hj (by omega), by simpa using hs⟩
      rw [resolveLoop_unfold, if_neg hs]
      rfl

theorem not_solving_iff (e : Evolution) :
    e.solving = false ↔ e.solved = true ∨ e._progressLimit ≤ e._progress := by
  unfold solving progress progressLimit
  cases e.solved <;> simp

/-- C8. For a freshly constructed controller with generation budget `L ≥ 0` and every engine,
`resolve()` terminates after some number `k ≤ L` of `evolve()` calls, the `j`-th of which
takes `progress()` from `j - 1` to `j`; it returns `solution()`, and on return `solved()`
holds or `progress() = L`. -/
theorem resolve_terminates (N : Nat) (L : Int) (r seeded : Randomizer) (_hN : 1 ≤ N)
    (hL : 0 ≤ L) :
    ∃ k : Nat, (k : Int) ≤ L ∧
      resolveLoop (construct N L r seeded).1 seeded =
        evolveTimes k (construct N L r seeded).1 seeded ∧
      (∀ j : Nat, j ≤ k →
        (evolveTimes j (construct N L r seeded).1 seeded).1.progress = (j : Int)) ∧
      (∀ j : Nat, j < k →
        (evolveTimes j (construct N L r seeded).1 seeded).1.solving = true) ∧
      (resolve (construct N L r seeded).1 seeded).1 =
        (resolve (construct N L r seeded).1 seeded).2.1.solution ∧
      ((resolve (construct N L r seeded).1 seeded).2.1.solved = true ∨
        (resolve (construct N L r seeded).1 seeded).2.1.progress = L) := by
  have hp0 : (construct N L r seeded).1._progress = 0 := rfl
  have hpl : (construct N L r seeded).1._progressLimit = L := rfl
  obtain ⟨k, h1, h2, h3, h4⟩ := resolveLoop_spec _ (construct N L r seeded).1 seeded rfl
  have hprog : ∀ j : Nat,
      (evolveTimes j (construct N L r seeded).1 seeded).1._progress = (j : Int) := by
    intro j
    rw [(evolveTimes_progress j _ _).1, hp0]
    omega
  have hkL : (k : Int) ≤ L := by
    rw [hp0, hpl] at h1
    omega
  refine ⟨k, hkL, h2, fun j _ => hprog j, h3, rfl, ?_⟩
  show (resolveLoop _ seeded).1.solved = true ∨ (resolveLoop _ seeded).1._progress = L
  rw [h2]
  rcases (not_solving_iff _).1 h4 with h | h
  · exact Or.inl h
  · right
    rw [(evolveTimes_progress k _ _).2, hpl] at h
    rw [hprog k] at h ⊢
    omega

/-- Witness: board size 4 with a budget of 3 generations. -/
theorem resolve_terminates_witness :
    (1 ≤ 4 ∧ (0 : Int) ≤ 3) ∧
      ((resolve (construct 4 3 (fun k => k) (fun k => 7 * k + 1)).1
          (fun k => 7 * k + 1)).2.1.solved = true ∨
        (resolve (construct 4 3 (fun k => k) (fun k => 7 * k + 1)).1
          (fun k => 7 * k + 1)).2.1.progress = 3) :=
  ⟨⟨by decide, by decide⟩,
    (resolve_terminates 4 3 (fun k => k) (fun k => 7 * k + 1) (by decide) (by decide)).elim
      (fun _ h => h.2.2.2.2.2)⟩

/-! ### The mutation chance -/

/-- The test of `mate` holds exactly for the draws whose residue modulo 100 is at most 10. -/
theorem mutationChance_iff (x : Nat) : Genotype.mutationChance x = true ↔ x % 100 ≤ 10 := by
  unfold Genotype.mutationChance Genotype.DefaultMutationPercent
  rw [decide_eq_true_eq]
  have h : (1 / 10 : ℚ) * 100 = ((10 : Nat) : ℚ) := by norm_num
  rw [h]
  exact Nat.cast_le

theorem mutationChance_eq (x : Nat) : Genotype.mutationChance x = decide (x % 100 ≤ 10) := by
  rcases h : Genotype.mutationChance x with _ | _
  · have : ¬ (x % 100 ≤ 10) := fun hle => by
      rw [(mutationChance_iff x).2 hle] at h
      exact Bool.noConfusion h
    simp [this]
  · have := (mutationChance_iff x).1 h
    simp [this]

/-- C10 (the code at the draw 10). `mate` mutates the children for the residue 10 as well:
eleven of the hundred residues of the draw modulo 100 pass the test, namely `0, …, 10`, and
eighty-nine do not. With parents `<0,1,2,3>` and `<3,2,1,0>`, cut point 2 and the draw 10,
the children `<0,1,3,2>`, `<3,2,0,1>` of the crossover come back as `<1,0,3,2>`,
`<3,2,1,0>`. -/
theorem mate_mutates_at_ten :
    Genotype.mutationChance 10 = true ∧
      (List.range 100).filter Genotype.mutationChance = [0, 1, 2, 3, 4, 5, 6, 7, 8, 9, 10] ∧
      ((List.range 100).filter (fun x => !Genotype.mutationChance x)).length = 89 ∧
      (((Genotype.ofGene [0, 1, 2, 3]).crossover (Genotype.ofGene [3, 2, 1, 0])
          (fun k => [2, 10, 0, 1, 2, 3].getD k 0)).1.map (fun c => c._gene) =
        [[0, 1, 3, 2], [3, 2, 0, 1]]) ∧
      (((Genotype.ofGene [0, 1, 2, 3]).mate (Genotype.ofGene [3, 2, 1, 0])
          (fun k => [2, 10, 0, 1, 2, 3].getD k 0)).1.map (fun c => c._gene) =
        [[1, 0, 3, 2], [3, 2, 1, 0]]) := by
  have hfun : Genotype.mutationChance = fun x => decide (x % 100 ≤ 10) :=
    funext mutationChance_eq
  refine ⟨(mutationChance_iff 10).2 (by decide), ?_, ?_, by decide, ?_⟩
  · rw [hfun]
    decide
  · rw [hfun]
    decide
  · have hc : ((Genotype.ofGene [0, 1, 2, 3]).crossover (Genotype.ofGene [3, 2, 1, 0])
        (fun k => [2, 10, 0, 1, 2, 3].getD k 0)).1 =
        [Genotype.ofGene [0, 1, 3, 2], Genotype.ofGene [3, 2, 0, 1]] := by decide
    rw [Genotype.mate_of_crossover hc, if_pos ((mutationChance_iff _).2 (by decide))]
    decide

end Evolution

namespace Evolution

/-! ### Construction with a non-positive budget -/

theorem tryConstruct_of_pos (N L : Int) (r seeded : Randomizer) (hN : 1 ≤ N) :
    tryConstruct N L r seeded = some (construct N.toNat L r seeded) := by
  unfold tryConstruct
  rw [if_neg (by omega)]

/-- With a budget `L ≤ 0` the loop of `resolve` makes no round. -/
theorem resolveLoop_of_limit_le (e : Evolution) (r : Randomizer)
    (h : e._progressLimit ≤ e._progress) : resolveLoop e r = (e, r) := by
  have hs : e.solving = false := (not_solving_iff e).2 (Or.inr h)
  rw [resolveLoop_unfold, if_neg (by simp [hs])]

/-- C11 (counterexample). The constructor call with board size 4 and generation budget 0, and
likewise with budget -5, returns a controller: construction does not fail. -/
theorem tryConstruct_zero_limit :
    ¬ (∀ (N L : Int) (r seeded : Randomizer), 1 ≤ N → L ≤ 0 →
        tryConstruct N L r seeded = none) ∧
      (tryConstruct 4 0 (fun k => k) (fun k => 7 * k + 1)).isSome = true ∧
      (tryConstruct 4 (-5) (fun k => k) (fun k => 7 * k + 1)).isSome = true := by
  refine ⟨fun h => ?_, ?_, ?_⟩
  · have h1 := h 4 0 (fun k => k) (fun k => k) (by decide) (by decide)
    rw [tryConstruct_of_pos 4 0 _ _ (by decide)] at h1
    exact Option.noConfusion h1
  · rw [tryConstruct_of_pos 4 0 _ _ (by decide)]
    rfl
  · rw [tryConstruct_of_pos 4 (-5) _ _ (by decide)]
    rfl

/-- C11 (amended). Constructing a controller with board size `N ≥ 1` and a non-positive
generation budget `L ≤ 0` does not fail: the controller is returned with `progressLimit() = L`
and `progress() = 0`; it is not `solving()`, and `resolve()` makes no `evolve()` call and
returns the `solution()` of the controller as constructed. -/
theorem tryConstruct_nonpositive_limit (N L : Int) (r seeded : Randomizer) (hN : 1 ≤ N)
    (hL : L ≤ 0) :
    tryConstruct N L r seeded = some (construct N.toNat L r seeded) ∧
      (construct N.toNat L r seeded).1.progressLimit = L ∧
      (construct N.toNat L r seeded).1.progress = 0 ∧
      (construct N.toNat L r seeded).1.solving = false ∧
      resolve (construct N.toNat L r seeded).1 (construct N.toNat L r seeded).2 =
        ((construct N.toNat L r seeded).1.solution, (construct N.toNat L r seeded).1,
          seeded) := by
  have hle : (construct N.toNat L r seeded).1._progressLimit ≤
      (construct N.toNat L r seeded).1._progress := by
    show L ≤ 0
    exact hL
  refine ⟨tryConstruct_of_pos N L r seeded hN, rfl, rfl,
    (not_solving_iff _).2 (Or.inr hle), ?_⟩
  unfold resolve
  rw [resolveLoop_of_limit_le _ _ hle]
  rfl

/-- Witness: board size 4 with the budget 0. -/
theorem tryConstruct_nonpositive_limit_witness :
    ((1 : Int) ≤ 4 ∧ (0 : Int) ≤ 0) ∧
      tryConstruct 4 0 (fun k => k) (fun k => 7 * k + 1) =
        some (construct (4 : Int).toNat 0 (fun k => k) (fun k => 7 * k + 1)) :=
  ⟨⟨by decide, by decide⟩,
    (tryConstruct_nonpositive_limit 4 0 (fun k => k) (fun k => 7 * k + 1) (by decide)
      (by decide)).1⟩

/-! ### Boards of size 2 and 3 -/

theorem Fitness_pos_of_isPermutation_two (gene : List Int)
    (hp : Genotype.IsPermutation 2 gene) : 0 < Genotype.Fitness (Genotype.ofGene gene) := by
  have hlen := hp.1
  have hnd := hp.nodup
  match gene, hlen, hnd, hp with
  | [a, b], _, hnd, hp =>
    have ha := (hp.mem_iff a).1 (by simp)
    have hb := (hp.mem_iff b).1 (by simp)
    obtain ⟨ha0, ha1⟩ := ha
    obtain ⟨hb0, hb1⟩ := hb
    have hab : a ≠ b := by
      intro h
      simp [h] at hnd
    interval_cases a <;> interval_cases b <;> first | exact absurd rfl hab | decide

theorem Fitness_pos_of_isPermutation_three (gene : List Int)
    (hp : Genotype.IsPermutation 3 gene) : 0 < Genotype.Fitness (Genotype.ofGene gene) := by
  have hlen := hp.1
  have hnd := hp.nodup
  match gene, hlen, hnd, hp with
  | [a, b, c], _, hnd, hp =>
    have ha := (hp.mem_iff a).1 (by simp)
    have hb := (hp.mem_iff b).1 (by simp)
    have hc := (hp.mem_iff c).1 (by simp)
    obtain ⟨ha0, ha1⟩ := ha
    obtain ⟨hb0, hb1⟩ := hb
    obtain ⟨hc0, hc1⟩ := hc
    have hab : a ≠ b := by
      intro h
      simp [h] at hnd
    have hac : a ≠ c := by
      intro h
      simp [h] at hnd
    have hbc : b ≠ c := by
      intro h
      simp [h] at hnd
    interval_cases a <;> interval_cases b <;> interval_cases c <;>
      first
        | exact absurd rfl hab
        | exact absurd rfl hac
        | exact absurd rfl hbc
        | decide

/-- No permutation of `{0, 1}` or of `{0, 1, 2}` is free of collisions. -/
theorem Fitness_pos_of_small {N : Nat} (hN : N = 2 ∨ N = 3) (g : Genotype)
    (hp : Genotype.IsPermutation N g._gene) : 0 < Genotype.Fitness g := by
  have hc : Genotype.Fitness g = Genotype.Fitness (Genotype.ofGene g._gene) :=
    Genotype.Fitness_congr rfl
  rw [hc]
  rcases hN with rfl | rfl
  · exact Fitness_pos_of_isPermutation_two _ hp
  · exact Fitness_pos_of_isPermutation_three _ hp

theorem Invariant.not_solved_of_small {N : Nat} (hN : N = 2 ∨ N = 3) {e : Evolution}
    (h : Invariant N e) : e.solved = false := by
  by_contra hs
  obtain ⟨c, hc, hz⟩ := h.solved_iff.1 (by simpa using hs)
  have := Fitness_pos_of_small hN c (h.2.2.1 c hc).1
  omega

theorem evolveTimes_invariant {N : Nat} (hN : 1 ≤ N) (k : Nat) (e : Evolution)
    (r : Randomizer) (h : Invariant N e) : Invariant N (evolveTimes k e r).1 := by
  induction k generalizing e r with
  | zero => exact h
  | succ k ih =>
    rw [evolveTimes_succ]
    exact ih _ _ (evolve_invariant hN h r)

theorem evolveTimes_reachable {N : Nat} (k : Nat) (e : Evolution) (r : Randomizer)
    (h : Reachable N e) : Reachable N (evolveTimes k e r).1 := by
  induction k generalizing e r with
  | zero => exact h
  | succ k ih =>
    rw [evolveTimes_succ]
    exact ih _ _ (Reachable.evolve r h)

/-- C12. For board size `N = 2` or `N = 3`, every budget `L ≥ 1` and every engine: every
permutation of `{0..N-1}` has `Fitness > 0`; `solved()` is false in every reachable state;
`resolve()` is exactly `L` `evolve()` calls, ends with `progress() = L` and unsolved, and
returns a candidate of the population whose collision count is not zero. -/
theorem resolve_exhausts_small (N : Nat) (L : Int) (r seeded : Randomizer)
    (hN : N = 2 ∨ N = 3) (hL : 1 ≤ L) :
    (∀ g : Genotype, Genotype.IsPermutation N g._gene → 0 < Genotype.Fitness g) ∧
      (∀ e : Evolution, Reachable N e → e.solved = false) ∧
      resolveLoop (construct N L r seeded).1 seeded =
        evolveTimes L.toNat (construct N L r seeded).1 seeded ∧
      (resolve (construct N L r seeded).1 seeded).2.1.progress = L ∧
      (resolve (construct N L r seeded).1 seeded).2.1.solved = false ∧
      (resolve (construct N L r seeded).1 seeded).1 ∈
        (resolve (construct N L r seeded).1 seeded).2.1._population ∧
      0 < (resolve (construct N L r seeded).1 seeded).1._fitness ∧
      0 < Genotype.Fitness (resolve (construct N L r seeded).1 seeded).1 := by
  have hN1 : 1 ≤ N := by omega
  have hp0 : (construct N L r seeded).1._progress = 0 := rfl
  have hpl : (construct N L r seeded).1._progressLimit = L := rfl
  have hinv0 := construct_invariant N L r seeded
  obtain ⟨k, h1, h2, -, h4⟩ := resolveLoop_spec _ (construct N L r seeded).1 seeded rfl
  have hinvk := evolveTimes_invariant hN1 k _ seeded hinv0
  have hns := hinvk.not_solved_of_small hN
  have hk : (k : Int) = L := by
    rcases (not_solving_iff _).1 h4 with h | h
    · rw [hns] at h
      exact absurd h (by simp)
    · rw [(evolveTimes_progress k _ _).2, (evolveTimes_progress k _ _).1, hp0, hpl] at h
      rw [hp0, hpl] at h1
      omega
  have hkL : L.toNat = k := by omega
  have hres : (resolve (construct N L r seeded).1 seeded).2.1 =
      (evolveTimes k (construct N L r seeded).1 seeded).1 := by
    show (resolveLoop _ seeded).1 = _
    rw [h2]
  have hsol : (resolve (construct N L r seeded).1 seeded).1 =
      (evolveTimes k (construct N L r seeded).1 seeded).1.solution := by
    show (resolveLoop _ seeded).1.solution = _
    rw [h2]
  have hmem := hinvk.solution_mem
  have hvalid := hinvk.2.2.1 _ hmem
  have hpos := Fitness_pos_of_small hN _ hvalid.1
  refine ⟨fun g hg => Fitness_pos_of_small hN g hg,
    fun e he => (he.invariant hN1).not_solved_of_small hN, by rw [hkL, h2], ?_, ?_, ?_, ?_, ?_⟩
  · rw [hres]
    show (evolveTimes k (construct N L r seeded).1 seeded).1._progress = L
    rw [(evolveTimes_progress k _ _).1, hp0]
    omega
  · rw [hres]
    exact hns
  · rw [hres, hsol]
    exact hmem
  · rw [hsol, hvalid.2]
    exact hpos
  · rw [hsol]
    exact hpos

/-- Witness: board size 3 with a budget of 5 generations. -/
theorem resolve_exhausts_small_witness :
    ((3 = 2 ∨ 3 = 3) ∧ (1 : Int) ≤ 5) ∧
      (resolve (construct 3 5 (fun k => k) (fun k => 7 * k + 1)).1
        (fun k => 7 * k + 1)).2.1.progress = 5 :=
  ⟨⟨by decide, by decide⟩,
    (resolve_exhausts_small 3 5 (fun k => k) (fun k => 7 * k + 1) (by decide)
      (by decide)).2.2.2.1⟩

/-! ### The shape of the children of a crossover -/

/-- A gene that starts with the `p` genes `a.take p` and goes on with `b` without them: its
first `p` genes are those of `a`, the rest are the genes of `b` that are not among them, in
the order they have in `b`. -/
theorem take_drop_child {N : Nat} {a b : List Int} (ha : Genotype.IsPermutation N a)
    (hb : Genotype.IsPermutation N b) (p : Nat) (hp : p < N) :
    (a.take p ++ b.diff (a.take p)).take p = a.take p ∧
      (a.take p ++ b.diff (a.take p)).drop p =
        b.filter (fun v => decide (v ∉ a.take p)) := by
  have hla : a.length = N := ha.1
  have hlen : (a.take p).length = p := by
    rw [List.length_take]
    omega
  refine ⟨List.take_left' hlen, ?_⟩
  rw [List.drop_left' hlen, hb.nodup.diff_eq_filter]

/-- C13. For permutation parents `self` and `other` of `{0..N-1}` (`N ≥ 1`) and the cut point
`p = draw % N`: `childA` has the genes of `self` at the positions `[0, p)` and, from `p` on,
the genes of `other` that do not occur in `self[0, p)`, in the order they have in `other`;
`childB` has the genes of `other` at `[0, p)` and then the genes of `self` that do not
occur in `other[0, p)`, in the order they have in `self`. -/
theorem crossover_structure (N : Nat) (self other : Genotype) (r : Randomizer)
    (hN : 1 ≤ N) (hs : Genotype.IsPermutation N self._gene)
    (ho : Genotype.IsPermutation N other._gene) :
    ∃ childA childB : Genotype,
      (self.crossover other r).1 = [childA, childB] ∧
        r 0 % N < N ∧ childA._gene.length = N ∧ childB._gene.length = N ∧
        childA._gene.take (r 0 % N) = self._gene.take (r 0 % N) ∧
        childA._gene.drop (r 0 % N) =
          other._gene.filter (fun v => decide (v ∉ self._gene.take (r 0 % N))) ∧
        childB._gene.take (r 0 % N) = other._gene.take (r 0 % N) ∧
        childB._gene.drop (r 0 % N) =
          self._gene.filter (fun v => decide (v ∉ other._gene.take (r 0 % N))) := by
  have hls : self._gene.length = N := hs.1
  have hlo : other._gene.length = N := ho.1
  have hp : r 0 % N < N := Nat.mod_lt _ (by omega)
  have hc := Genotype.crossover_genes self other r (by omega) (by omega)
  rw [hls] at hc
  obtain ⟨a1, a2⟩ := take_drop_child hs ho (r 0 % N) hp
  obtain ⟨b1, b2⟩ := take_drop_child ho hs (r 0 % N) hp
  exact ⟨_, _, hc, hp, (Genotype.take_append_diff_perm hs ho _).1,
    (Genotype.take_append_diff_perm ho hs _).1, a1, a2, b1, b2⟩

/-- Witness: parents `<0,1,2,3,4>` and `<3,4,2,1,0>`, every draw 3. -/
theorem crossover_structure_witness :
    (1 ≤ 5 ∧ Genotype.IsPermutation 5 (Genotype.ofGene [0, 1, 2, 3, 4])._gene ∧
        Genotype.IsPermutation 5 (Genotype.ofGene [3, 4, 2, 1, 0])._gene) ∧
      ∃ childA childB : Genotype,
        ((Genotype.ofGene [0, 1, 2, 3, 4]).crossover (Genotype.ofGene [3, 4, 2, 1, 0])
            (fun _ => 3)).1 = [childA, childB] ∧
          childA._gene.take (3 % 5) = (Genotype.ofGene [0, 1, 2, 3, 4])._gene.take (3 % 5) :=
  ⟨⟨by decide, by decide, by decide⟩,
    (crossover_structure 5 (Genotype.ofGene [0, 1, 2, 3, 4]) (Genotype.ofGene [3, 4, 2, 1, 0])
      (fun _ => 3) (by decide) (by decide) (by decide)).elim
      (fun cA h => h.elim (fun cB hh => ⟨cA, cB, hh.1, hh.2.2.2.2.1⟩))⟩

/-! ### The cached collision count -/

theorem assign_consistent (self other : Genotype) (h : Genotype.Consistent other) :
    Genotype.Consistent (self.assign other) := by
  unfold Genotype.Consistent at h ⊢
  have hc : Genotype.Fitness (self.assign other) = Genotype.Fitness other :=
    Genotype.Fitness_congr rfl
  rw [hc, ← h]
  rfl

theorem crossover_shape (a b : Genotype) (r : Randomizer) :
    ∃ x y : List Int, (a.crossover b r).1 = [Genotype.ofGene x, Genotype.ofGene y] :=
  ⟨_, _, rfl⟩

theorem crossover_consistent (a b : Genotype) (r : Randomizer) :
    ∀ c ∈ (a.crossover b r).1, Genotype.Consistent c := by
  obtain ⟨x, y, h⟩ := crossover_shape a b r
  intro c hc
  rw [h] at hc
  simp only [List.mem_cons, List.mem_singleton, List.not_mem_nil, or_false] at hc
  rcases hc with rfl | rfl
  · exact Genotype.ofGene_consistent x
  · exact Genotype.ofGene_consistent y

theorem mate_consistent (a b : Genotype) (r : Randomizer) :
    ∀ c ∈ (a.mate b r).1, Genotype.Consistent c := by
  obtain ⟨x, y, h⟩ := crossover_shape a b r
  intro c hc
  rw [Genotype.mate_of_crossover h] at hc
  by_cases hm : Genotype.mutationChance (r 1) = true
  · rw [if_pos hm] at hc
    simp only [List.mem_cons, List.mem_singleton, List.not_mem_nil, or_false] at hc
    rcases hc with rfl | rfl
    · exact Genotype.mutate_consistent _ _
    · exact Genotype.mutate_consistent _ _
  · rw [if_neg hm] at hc
    simp only [List.mem_cons, List.mem_singleton, List.not_mem_nil, or_false] at hc
    rcases hc with rfl | rfl
    · exact Genotype.ofGene_consistent x
    · exact Genotype.ofGene_consistent y

/-- C14. The cached collision count agrees with the gene: for the candidate made by the
gene-sequence constructor, by the random-permutation constructor, by assignment or copy of a
consistent candidate, for each child of `crossover` and of `mate`, and for the candidate after
`mutate()`, the stored `_fitness` is `Genotype::Fitness` of its gene. -/
theorem cached_fitness_consistent (genes : List Int) (N : Nat)
    (g self other a b : Genotype) (r : Randomizer) (hother : other._fitness = other.Fitness) :
    (Genotype.ofGene genes)._fitness = (Genotype.ofGene genes).Fitness ∧
      (Genotype.random N r).1._fitness = (Genotype.random N r).1.Fitness ∧
      (self.assign other)._fitness = (self.assign other).Fitness ∧
      (Genotype.copy other)._fitness = (Genotype.copy other).Fitness ∧
      (∀ c ∈ (a.crossover b r).1, c._fitness = c.Fitness) ∧
      (∀ c ∈ (a.mate b r).1, c._fitness = c.Fitness) ∧
      (g.mutate r).1._fitness = (g.mutate r).1.Fitness :=
  ⟨Genotype.ofGene_consistent genes, (Genotype.random_valid N r).2,
    assign_consistent self other hother, assign_consistent default other hother,
    crossover_consistent a b r, mate_consistent a b r, Genotype.mutate_consistent g r⟩

/-- Witness: copying the candidate `<0, 2, 1>`, whose cached collision count is 2. -/
theorem cached_fitness_consistent_witness :
    (Genotype.ofGene [0, 2, 1])._fitness = (Genotype.ofGene [0, 2, 1]).Fitness ∧
      (Genotype.copy (Genotype.ofGene [0, 2, 1]))._fitness =
        (Genotype.copy (Genotype.ofGene [0, 2, 1])).Fitness :=
  ⟨by decide,
    (cached_fitness_consistent [0, 2, 1] 3 (Genotype.ofGene [0, 2, 1])
      (Genotype.ofGene [1, 0, 2]) (Genotype.ofGene [0, 2, 1]) (Genotype.ofGene [0, 2, 1])
      (Genotype.ofGene [1, 0, 2]) (fun k => k) (by decide)).2.2.2.1⟩

/-! ### The collision count, bin by bin -/

theorem count_map_eq_length_filter (l : List Nat) (f : Nat → Int) (b : Int) :
    (l.map f).count b = (l.filter (fun i => decide (f i = b))).length := by
  induction l with
  | nil => rfl
  | cons a l ih =>
    rw [List.map_cons, List.count_cons, ih, List.filter_cons]
    by_cases h : f a = b
    · simp [h]
    · simp [h]

theorem count_leftBins (g : Genotype) (bin : Nat) :
    (Genotype.leftBins g).count (bin : Int) = Genotype.rowsInLeftBin g bin :=
  count_map_eq_length_filter _ _ _

theorem count_rightBins (g : Genotype) (bin : Nat) :
    (Genotype.rightBins g).count (bin : Int) = Genotype.rowsInRightBin g bin :=
  count_map_eq_length_filter _ _ _

/-- The value of `Fitness` as the sum, over the bins of both directions, of the collisions of
the number of rows in the bin. -/
theorem Fitness_eq_rows_sum (g : Genotype) :
    Genotype.Fitness g =
      ((List.range (g.length * 2 - 1)).map
          (fun bin : Nat => Genotype.collisionsOf (Genotype.rowsInLeftBin g bin))).sum +
      ((List.range (g.length * 2 - 1)).map
          (fun bin : Nat => Genotype.collisionsOf (Genotype.rowsInRightBin g bin))).sum := by
  rw [Genotype.Fitness_eq_sum, List.map_map, List.map_map]
  have hL : (Genotype.collisionsOf ∘ fun j : Nat => (((Genotype.leftBins g).count (j : Int) : Nat) : Int)) =
      fun bin : Nat => Genotype.collisionsOf (Genotype.rowsInLeftBin g bin) := by
    funext j
    simp only [Function.comp, count_leftBins]
  have hR : (Genotype.collisionsOf ∘ fun j : Nat => (((Genotype.rightBins g).count (j : Int) : Nat) : Int)) =
      fun bin : Nat => Genotype.collisionsOf (Genotype.rowsInRightBin g bin) := by
    funext j
    simp only [Function.comp, count_rightBins]
  rw [hL, hR]

/-- With gene values in range, every row falls in one of the `2N-1` bins of each
direction. -/
theorem row_bins_lt (g : Genotype) (hv : Genotype.InRange g) (i : Nat) (hi : i < g.length) :
    (0 ≤ (i : Int) + g.gene i ∧ (i : Int) + g.gene i < ((g.length * 2 - 1 : Nat) : Int)) ∧
      (0 ≤ (i : Int) + (((g.length : Int) - 1) - g.gene i) ∧
        (i : Int) + (((g.length : Int) - 1) - g.gene i) < ((g.length * 2 - 1 : Nat) : Int)) := by
  have := hv i hi
  omega

/-- C15. For every gene of length `N ≥ 1` with values in `[0, N-1]`, `Genotype::Fitness` is
the sum, over the `2N-1` left bins (row `i` in bin `i + gene[i]`) and the `2N-1` right bins
(row `i` in bin `i + (N-1-gene[i])`), of `(k-1)*2` for each bin holding `k ≥ 2` rows and of 0
for a bin holding `k ≤ 1` rows; every row falls in one of the bins of each direction. -/
theorem Fitness_eq_bin_sum (g : Genotype) (_hN : 1 ≤ g.length) (hv : Genotype.InRange g) :
    Genotype.Fitness g =
        ((List.range (g.length * 2 - 1)).map (fun bin : Nat =>
            if 2 ≤ Genotype.rowsInLeftBin g bin then
              ((Genotype.rowsInLeftBin g bin : Int) - 1) * 2
            else 0)).sum +
        ((List.range (g.length * 2 - 1)).map (fun bin : Nat =>
            if 2 ≤ Genotype.rowsInRightBin g bin then
              ((Genotype.rowsInRightBin g bin : Int) - 1) * 2
            else 0)).sum ∧
      ∀ i : Nat, i < g.length →
        (∃ bin : Nat, bin < g.length * 2 - 1 ∧ (i : Int) + g.gene i = (bin : Int)) ∧
        (∃ bin : Nat, bin < g.length * 2 - 1 ∧
          (i : Int) + (((g.length : Int) - 1) - g.gene i) = (bin : Int)) := by
  constructor
  · rw [Fitness_eq_rows_sum]
    have hco : ∀ k : Nat, Genotype.collisionsOf (k : Int) =
        if 2 ≤ k then ((k : Int) - 1) * 2 else 0 := by
      intro k
      unfold Genotype.collisionsOf
      by_cases h : 2 ≤ k
      · rw [if_pos h, if_pos (by omega)]
      · rw [if_neg h, if_neg (by omega)]
    simp only [hco]
  · intro i hi
    obtain ⟨⟨a1, a2⟩, ⟨b1, b2⟩⟩ := row_bins_lt g hv i hi
    refine ⟨⟨((i : Int) + g.gene i).toNat, by omega, by omega⟩,
      ⟨((i : Int) + (((g.length : Int) - 1) - g.gene i)).toNat, by omega, by omega⟩⟩

/-- Witness: the board `<0, 1, 2>`, whose three queens share one diagonal. -/
theorem Fitness_eq_bin_sum_witness :
    (1 ≤ (Genotype.ofGene [0, 1, 2]).length ∧ Genotype.InRange (Genotype.ofGene [0, 1, 2])) ∧
      Genotype.Fitness (Genotype.ofGene [0, 1, 2]) =
        ((List.range ((Genotype.ofGene [0, 1, 2]).length * 2 - 1)).map (fun bin : Nat =>
            if 2 ≤ Genotype.rowsInLeftBin (Genotype.ofGene [0, 1, 2]) bin then
              ((Genotype.rowsInLeftBin (Genotype.ofGene [0, 1, 2]) bin : Int) - 1) * 2
            else 0)).sum +
        ((List.range ((Genotype.ofGene [0, 1, 2]).length * 2 - 1)).map (fun bin : Nat =>
            if 2 ≤ Genotype.rowsInRightBin (Genotype.ofGene [0, 1, 2]) bin then
              ((Genotype.rowsInRightBin (Genotype.ofGene [0, 1, 2]) bin : Int) - 1) * 2
            else 0)).sum :=
  ⟨⟨by decide, by decide⟩,
    (Fitness_eq_bin_sum (Genotype.ofGene [0, 1, 2]) (by decide) (by decide)).1⟩

end Evolution

namespace Evolution

/-! ### Collisions counted pair by pair -/

theorem length_filter_or (l : List Nat) (p q : Nat → Bool)
    (h : ∀ x ∈ l, ¬ (p x = true ∧ q x = true)) :
    (l.filter (fun x => p x || q x)).length = (l.filter p).length + (l.filter q).length := by
  induction l with
  | nil => rfl
  | cons a l ih =>
    have ha := h a (List.mem_cons_self _ _)
    have ih' := ih (fun x hx => h x (List.mem_cons_of_mem _ hx))
    simp only [List.filter_cons]
    cases hp : p a <;> cases hq : q a
    · simpa using ih'
    · simp [ih']
      omega
    · simp [ih']
      omega
    · exact absurd ⟨hp, hq⟩ ha

theorem length_filter_eq_self (N i : Nat) (hi : i < N) :
    ((List.range N).filter (fun j => decide (j = i))).length = 1 := by
  have h1 : (List.range N).filter (fun j => decide (j = i)) =
      (List.range N).filter (fun j => j == i) :=
    List.filter_congr (fun x _ => by rw [Bool.eq_iff_iff]; simp)
  rw [h1, ← List.countP_eq_length_filter, ← List.count_eq_countP]
  exact List.count_eq_one_of_mem (List.nodup_range N) (List.mem_range.2 hi)

/-- The rows other than `i` with the key of row `i` are one fewer than the rows with that
key. -/
theorem length_filter_others (key : Nat → Int) (N i : Nat) (hi : i < N) :
    (((List.range N).filter (fun j => decide (i ≠ j ∧ key j = key i))).length : Int) =
      (((List.range N).map key).count (key i) : Int) - 1 := by
  rw [count_map_eq_length_filter]
  have hsplit : (List.range N).filter (fun j => decide (key j = key i)) =
      (List.range N).filter
        (fun j => decide (i ≠ j ∧ key j = key i) || decide (j = i)) := by
    apply List.filter_congr
    intro j _
    by_cases hji : j = i
    · simp [hji]
    · have : i ≠ j := fun h => hji h.symm
      simp [hji, this]
  rw [hsplit, length_filter_or _ _ _ (fun j _ => by
    rintro ⟨h1, h2⟩
    simp only [decide_eq_true_eq] at h1 h2
    exact h1.1 h2.symm), length_filter_eq_self N i hi]
  push_cast
  omega

/-- A sum over the keys of a list, bin by bin. -/
theorem sum_map_keys (keys : List Int) (M : Nat) (f : Nat → Int)
    (hr : ∀ k ∈ keys, 0 ≤ k ∧ k < (M : Int)) :
    (keys.map (fun k => f k.toNat)).sum =
      ((List.range M).map (fun b : Nat => (keys.count (b : Int) : Int) * f b)).sum := by
  induction keys with
  | nil => simp
  | cons a keys ih =>
    obtain ⟨h0, hM⟩ := hr a (List.mem_cons_self _ _)
    have ih' := ih (fun k hk => hr k (List.mem_cons_of_mem _ hk))
    rw [List.map_cons, List.sum_cons, ih']
    have hone : ((List.range M).map (fun b : Nat => if (b : Int) = a then f b else 0)).sum =
        f a.toNat := by
      have hmem : a.toNat < M := by omega
      clear ih ih' hr
      induction M with
      | zero => omega
      | succ M ihM =>
        rw [List.range_succ, List.map_append, List.sum_append]
        by_cases hlast : a.toNat = M
        · have hz : ((List.range M).map (fun b : Nat => if (b : Int) = a then f b else 0)).sum
              = 0 := by
            apply List.sum_eq_zero
            intro x hx
            obtain ⟨b, hb, rfl⟩ := List.mem_map.1 hx
            have := List.mem_range.1 hb
            rw [if_neg (by omega)]
          rw [hz]
          have hMa : (M : Int) = a := by omega
          rw [List.map_singleton, List.sum_singleton, if_pos hMa, hlast, zero_add]
        · have := ihM (by omega) (by omega)
          rw [this]
          have : ¬ ((M : Int) = a) := by omega
          simp [this]
    rw [← hone, ← List.sum_map_add]
    congr 1
    apply List.map_congr_left
    intro b _
    rw [List.count_cons]
    by_cases hb : (b : Int) = a
    · have hab : (a == (b : Int)) = true := by simp [hb]
      rw [if_pos hb, hab, if_pos rfl]
      push_cast
      ring
    · have hab : (a == (b : Int)) = false := by
        simp only [beq_eq_false_iff_ne, ne_eq]
        exact fun h => hb h.symm
      rw [if_neg hb, hab, if_neg (by simp)]
      simp


/-- Two different rows collide exactly when they share a left bin or share a right bin, and
they cannot share both. -/
theorem collide_iff (g : Genotype) (i j : Nat) :
    ((i ≠ j ∧ |g.gene i - g.gene j| = |(i : Int) - (j : Int)|) ↔
        ((i ≠ j ∧ (j : Int) + g.gene j = (i : Int) + g.gene i) ∨
          (i ≠ j ∧ (j : Int) + (((g.length : Int) - 1) - g.gene j) =
            (i : Int) + (((g.length : Int) - 1) - g.gene i)))) ∧
      ¬ ((i ≠ j ∧ (j : Int) + g.gene j = (i : Int) + g.gene i) ∧
          (i ≠ j ∧ (j : Int) + (((g.length : Int) - 1) - g.gene j) =
            (i : Int) + (((g.length : Int) - 1) - g.gene i))) := by
  constructor
  · constructor
    · rintro ⟨hne, habs⟩
      rcases abs_eq_abs.1 habs with h | h
      · exact Or.inr ⟨hne, by omega⟩
      · exact Or.inl ⟨hne, by omega⟩
    · rintro (⟨hne, h⟩ | ⟨hne, h⟩)
      · exact ⟨hne, abs_eq_abs.2 (Or.inr (by omega))⟩
      · exact ⟨hne, abs_eq_abs.2 (Or.inl (by omega))⟩
  · rintro ⟨⟨hne, h1⟩, ⟨-, h2⟩⟩
    exact hne (by omega)

/-- The rows that collide with row `i`, counted through the two bins of row `i`. -/
theorem length_filter_collide (g : Genotype) (i : Nat) (hi : i < g.length) :
    (((List.range g.length).filter (fun j : Nat =>
        decide (i ≠ j ∧ |g.gene i - g.gene j| = |(i : Int) - (j : Int)|))).length : Int) =
      (((Genotype.leftBins g).count ((i : Int) + g.gene i) : Int) - 1) +
        (((Genotype.rightBins g).count
          ((i : Int) + (((g.length : Int) - 1) - g.gene i)) : Int) - 1) := by
  have hsplit : (List.range g.length).filter (fun j : Nat =>
        decide (i ≠ j ∧ |g.gene i - g.gene j| = |(i : Int) - (j : Int)|)) =
      (List.range g.length).filter (fun j : Nat =>
        decide (i ≠ j ∧ (j : Int) + g.gene j = (i : Int) + g.gene i) ||
          decide (i ≠ j ∧ (j : Int) + (((g.length : Int) - 1) - g.gene j) =
            (i : Int) + (((g.length : Int) - 1) - g.gene i))) := by
    apply List.filter_congr
    intro j _
    rw [Bool.eq_iff_iff]
    simp only [Bool.or_eq_true, decide_eq_true_eq]
    exact (collide_iff g i j).1
  rw [hsplit, length_filter_or _ _ _ (fun j _ => by
    simp only [decide_eq_true_eq]
    exact (collide_iff g i j).2)]
  push_cast
  rw [length_filter_others (fun j : Nat => (j : Int) + g.gene j) g.length i hi,
    length_filter_others (fun j : Nat => (j : Int) + (((g.length : Int) - 1) - g.gene j))
      g.length i hi]
  rfl

/-- With gene values in range, the ordered colliding pairs are `k (k - 1)` for each bin
holding `k` rows, summed over the bins of both directions. -/
theorem orderedCollisions_eq_sum (g : Genotype) (hv : Genotype.InRange g) :
    (Genotype.orderedCollisions g : Int) =
      ((List.range (g.length * 2 - 1)).map (fun bin : Nat =>
          (Genotype.rowsInLeftBin g bin : Int) * ((Genotype.rowsInLeftBin g bin : Int) - 1))).sum +
      ((List.range (g.length * 2 - 1)).map (fun bin : Nat =>
          (Genotype.rowsInRightBin g bin : Int) *
            ((Genotype.rowsInRightBin g bin : Int) - 1))).sum := by
  have hL := sum_map_keys (Genotype.leftBins g) (g.length * 2 - 1)
    (fun b : Nat => ((Genotype.leftBins g).count (b : Int) : Int) - 1)
    (Genotype.leftBins_inRange g hv)
  have hR := sum_map_keys (Genotype.rightBins g) (g.length * 2 - 1)
    (fun b : Nat => ((Genotype.rightBins g).count (b : Int) : Int) - 1)
    (Genotype.rightBins_inRange g hv)
  simp only [count_leftBins] at hL
  simp only [count_rightBins] at hR
  rw [← hL, ← hR]
  unfold Genotype.orderedCollisions
  rw [Nat.cast_list_sum, List.map_map]
  have hterm : ∀ i ∈ List.range g.length,
      ((Nat.cast : Nat → Int) ∘ fun i : Nat =>
        ((List.range g.length).filter (fun j : Nat =>
          decide (i ≠ j ∧ |g.gene i - g.gene j| = |(i : Int) - (j : Int)|))).length) i =
      ((Genotype.rowsInLeftBin g ((i : Int) + g.gene i).toNat : Int) - 1) +
        ((Genotype.rowsInRightBin g
          ((i : Int) + (((g.length : Int) - 1) - g.gene i)).toNat : Int) - 1) := by
    intro i hi
    have hi' := List.mem_range.1 hi
    obtain ⟨⟨a1, -⟩, ⟨b1, -⟩⟩ := row_bins_lt g hv i hi'
    rw [← count_leftBins, ← count_rightBins, Int.toNat_of_nonneg a1, Int.toNat_of_nonneg b1]
    exact length_filter_collide g i hi'
  rw [List.map_congr_left hterm, List.sum_map_add]
  unfold Genotype.leftBins Genotype.rightBins
  rw [List.map_map, List.map_map]
  rfl


theorem collisionsOf_le_pairs (k : Nat) :
    Genotype.collisionsOf (k : Int) ≤ (k : Int) * ((k : Int) - 1) ∧
      (Genotype.collisionsOf (k : Int) = (k : Int) * ((k : Int) - 1) ↔ k ≤ 2) := by
  unfold Genotype.collisionsOf
  by_cases h : (k : Int) > 1
  · rw [if_pos h]
    have h2 : (2 : Int) ≤ k := by omega
    constructor
    · nlinarith
    · constructor
      · intro he
        by_contra hk
        have h3 : (3 : Int) ≤ k := by omega
        nlinarith
      · intro hk
        have : (k : Int) = 2 := by omega
        rw [this]
        norm_num
  · rw [if_neg h]
    have hk : k = 0 ∨ k = 1 := by omega
    rcases hk with rfl | rfl <;> simp

theorem sum_map_le_and_eq_iff (l : List Nat) (f h : Nat → Int) (hle : ∀ x ∈ l, f x ≤ h x) :
    (l.map f).sum ≤ (l.map h).sum ∧
      ((l.map f).sum = (l.map h).sum ↔ ∀ x ∈ l, f x = h x) := by
  induction l with
  | nil => simp
  | cons a l ih =>
    obtain ⟨ih1, ih2⟩ := ih (fun x hx => hle x (List.mem_cons_of_mem _ hx))
    have ha := hle a (List.mem_cons_self _ _)
    simp only [List.map_cons, List.sum_cons]
    refine ⟨by omega, ?_⟩
    constructor
    · intro he x hx
      rcases List.mem_cons.1 hx with rfl | hx
      · omega
      · exact ih2.1 (by omega) x hx
    · intro hall
      have h1 := hall a (List.mem_cons_self _ _)
      have h2 := ih2.2 (fun x hx => hall x (List.mem_cons_of_mem _ hx))
      omega

/-- With gene values in range, `Fitness` is at most the number of ordered colliding pairs,
and is that number exactly when no bin holds more than two rows. -/
theorem Fitness_le_orderedCollisions_of_inRange (g : Genotype) (hv : Genotype.InRange g) :
    Genotype.Fitness g ≤ (Genotype.orderedCollisions g : Int) ∧
      (Genotype.Fitness g = (Genotype.orderedCollisions g : Int) ↔
        ∀ bin : Nat, bin < g.length * 2 - 1 →
          Genotype.rowsInLeftBin g bin ≤ 2 ∧ Genotype.rowsInRightBin g bin ≤ 2) := by
  rw [Fitness_eq_rows_sum, orderedCollisions_eq_sum g hv]
  obtain ⟨l1, l2⟩ := sum_map_le_and_eq_iff (List.range (g.length * 2 - 1))
    (fun bin : Nat => Genotype.collisionsOf (Genotype.rowsInLeftBin g bin))
    (fun bin : Nat =>
      (Genotype.rowsInLeftBin g bin : Int) * ((Genotype.rowsInLeftBin g bin : Int) - 1))
    (fun x _ => (collisionsOf_le_pairs _).1)
  obtain ⟨r1, r2⟩ := sum_map_le_and_eq_iff (List.range (g.length * 2 - 1))
    (fun bin : Nat => Genotype.collisionsOf (Genotype.rowsInRightBin g bin))
    (fun bin : Nat =>
      (Genotype.rowsInRightBin g bin : Int) * ((Genotype.rowsInRightBin g bin : Int) - 1))
    (fun x _ => (collisionsOf_le_pairs _).1)
  refine ⟨by omega, ?_⟩
  constructor
  · intro he bin hbin
    have hmem := List.mem_range.2 hbin
    exact ⟨(collisionsOf_le_pairs _).2.1 (l2.1 (by omega) bin hmem),
      (collisionsOf_le_pairs _).2.1 (r2.1 (by omega) bin hmem)⟩
  · intro hall
    have e1 := l2.2 (fun bin hmem =>
      (collisionsOf_le_pairs _).2.2 (hall bin (List.mem_range.1 hmem)).1)
    have e2 := r2.2 (fun bin hmem =>
      (collisionsOf_le_pairs _).2.2 (hall bin (List.mem_range.1 hmem)).2)
    omega

/-- C16 (counterexample). On the permutation `<0, 1, 2>`, whose three queens share one
diagonal, `Fitness` is 4 while there are 6 ordered pairs of colliding rows. -/
theorem Fitness_ne_orderedCollisions :
    Genotype.IsPermutation 3 (Genotype.ofGene [0, 1, 2])._gene ∧
      Genotype.Fitness (Genotype.ofGene [0, 1, 2]) = 4 ∧
      Genotype.orderedCollisions (Genotype.ofGene [0, 1, 2]) = 6 ∧
      Genotype.Fitness (Genotype.ofGene [0, 1, 2]) ≠
        (Genotype.orderedCollisions (Genotype.ofGene [0, 1, 2]) : Int) := by
  refine ⟨by decide, by decide, by decide, by decide⟩

/-- C16 (amended). For every permutation gene of length `N ≥ 1`, `Genotype::Fitness` is at
most the number of ordered pairs `(i, j)`, `i ≠ j`, with `|gene[i] - gene[j]| = |i - j|`, and
it equals that number exactly when no diagonal holds more than two queens; a diagonal with
`k ≥ 2` queens adds `2 (k - 1)` to `Fitness` and `k (k - 1)` to the number of pairs. -/
theorem Fitness_le_orderedCollisions (g : Genotype) (_hN : 1 ≤ g.length)
    (hp : Genotype.IsPermutation g.length g._gene) :
    Genotype.Fitness g ≤ (Genotype.orderedCollisions g : Int) ∧
      (Genotype.Fitness g = (Genotype.orderedCollisions g : Int) ↔
        ∀ bin : Nat, bin < g.length * 2 - 1 →
          Genotype.rowsInLeftBin g bin ≤ 2 ∧ Genotype.rowsInRightBin g bin ≤ 2) ∧
      Genotype.Fitness g =
        ((List.range (g.length * 2 - 1)).map
            (fun bin : Nat => Genotype.collisionsOf (Genotype.rowsInLeftBin g bin))).sum +
        ((List.range (g.length * 2 - 1)).map
            (fun bin : Nat => Genotype.collisionsOf (Genotype.rowsInRightBin g bin))).sum ∧
      (Genotype.orderedCollisions g : Int) =
        ((List.range (g.length * 2 - 1)).map (fun bin : Nat =>
            (Genotype.rowsInLeftBin g bin : Int) *
              ((Genotype.rowsInLeftBin g bin : Int) - 1))).sum +
        ((List.range (g.length * 2 - 1)).map (fun bin : Nat =>
            (Genotype.rowsInRightBin g bin : Int) *
              ((Genotype.rowsInRightBin g bin : Int) - 1))).sum :=
  ⟨(Fitness_le_orderedCollisions_of_inRange g (isPermutation_inRange hp)).1,
    (Fitness_le_orderedCollisions_of_inRange g (isPermutation_inRange hp)).2,
    Fitness_eq_rows_sum g, orderedCollisions_eq_sum g (isPermutation_inRange hp)⟩

/-- Witness: the board `<0, 2, 1, 3>`, with two diagonals of two queens each. -/
theorem Fitness_le_orderedCollisions_witness :
    (1 ≤ (Genotype.ofGene [0, 2, 1, 3]).length ∧
        Genotype.IsPermutation (Genotype.ofGene [0, 2, 1, 3]).length
          (Genotype.ofGene [0, 2, 1, 3])._gene) ∧
      Genotype.Fitness (Genotype.ofGene [0, 2, 1, 3]) ≤
        (Genotype.orderedCollisions (Genotype.ofGene [0, 2, 1, 3]) : Int) :=
  ⟨⟨by decide, by decide⟩,
    (Fitness_le_orderedCollisions (Genotype.ofGene [0, 2, 1, 3]) (by decide) (by decide)).1⟩

end Evolution

namespace Evolution

/-! ### Tournament selection -/

theorem lt_eq_true_iff (a b : Genotype) : a.lt b = true ↔ a.fitness < b.fitness := by
  unfold Genotype.lt
  simp

/-- The top of the queue is one whose score none of the three exceeds. -/
theorem top3_ge (c0 c1 c2 : Genotype) :
    c0.fitness ≤ (top3 c0 c1 c2).fitness ∧ c1.fitness ≤ (top3 c0 c1 c2).fitness ∧
      c2.fitness ≤ (top3 c0 c1 c2).fitness := by
  by_cases h01 : c0.lt c1 = true
  · have h01' := (lt_eq_true_iff _ _).1 h01
    by_cases h12 : c1.lt c2 = true
    · have h12' := (lt_eq_true_iff _ _).1 h12
      have e : top3 c0 c1 c2 = c2 := by simp [top3, h01, h12]
      rw [e]
      exact ⟨le_of_lt (lt_trans h01' h12'), le_of_lt h12', le_refl _⟩
    · have h12' : ¬ c1.fitness < c2.fitness := fun h => h12 ((lt_eq_true_iff _ _).2 h)
      have e : top3 c0 c1 c2 = c1 := by simp [top3, h01, h12]
      rw [e]
      exact ⟨le_of_lt h01', le_refl _, not_lt.1 h12'⟩
  · have h01' : ¬ c0.fitness < c1.fitness := fun h => h01 ((lt_eq_true_iff _ _).2 h)
    by_cases h02 : c0.lt c2 = true
    · have h02' := (lt_eq_true_iff _ _).1 h02
      have e : top3 c0 c1 c2 = c2 := by simp [top3, h01, h02]
      rw [e]
      exact ⟨le_of_lt h02', le_trans (not_lt.1 h01') (le_of_lt h02'), le_refl _⟩
    · have h02' : ¬ c0.fitness < c2.fitness := fun h => h02 ((lt_eq_true_iff _ _).2 h)
      have e : top3 c0 c1 c2 = c0 := by simp [top3, h01, h02]
      rw [e]
      exact ⟨le_refl _, not_lt.1 h01', not_lt.1 h02'⟩

theorem pickParent_eq (population : Population) (r : Randomizer) :
    (pickParent population r).1 = tournament population r 0 ∧
      (pickParent population r).2 = fun k => r (k + 3) :=
  ⟨rfl, rfl⟩

/-- The loop of `_extractParents` appends the winners of the tournaments `0, …, n-1` and
leaves the engine `3n` calls further. -/
theorem pickParents_eq (population : Population) (n : Nat) (parents : Population)
    (r : Randomizer) :
    (pickParents population n parents r).1 =
        parents ++ (List.range n).map (tournament population r) ∧
      (pickParents population n parents r).2 = fun k => r (k + 3 * n) := by
  induction n generalizing parents r with
  | zero => exact ⟨by simp [pickParents], rfl⟩
  | succ n ih =>
    unfold pickParents
    obtain ⟨h1, h2⟩ := ih (parents ++ [(pickParent population r).1]) (pickParent population r).2
    rw [h1, h2, (pickParent_eq population r).1, (pickParent_eq population r).2]
    constructor
    · rw [List.range_succ_eq_map, List.map_cons, List.map_map, List.append_assoc]
      rfl
    · funext k
      rfl

theorem sample_mem (population : Population) (r : Randomizer) (k : Nat)
    (hp : population ≠ []) :
    r k % population.length < population.length ∧ sample population r k ∈ population :=
  ⟨Nat.mod_lt _ (List.length_pos.2 hp), getD_mod_mem population (r k) hp⟩

/-- C17. For every non-empty population and every engine, the parents that `_extractParents`
returns are, in some order, the winners of the tournaments `0, 1, …`: tournament `k` takes the
three candidates at the indices `draw % population.size()` of the calls `3k`, `3k+1`, `3k+2`
of the engine (which may repeat), and its winner is one of these three, with a score at least
that of each of them. The population is only read. -/
theorem extractParents_tournament (population : Population) (parentCount : Nat)
    (r : Randomizer) (hp : population ≠ []) :
    (_extractParents population parentCount r).1.Perm
        ((List.range (if parentCount % 2 ≠ 0 then parentCount + 1 else parentCount)).map
          (tournament population r)) ∧
      (_extractParents population parentCount r).2 =
        (fun k => r (k + 3 * (if parentCount % 2 ≠ 0 then parentCount + 1 else parentCount))) ∧
      ∀ k : Nat,
        (∀ d : Nat, d < 3 →
          sample population r (3 * k + d) =
              population.getD (r (3 * k + d) % population.length) default ∧
            r (3 * k + d) % population.length < population.length ∧
            sample population r (3 * k + d) ∈ population) ∧
        (tournament population r k = sample population r (3 * k) ∨
          tournament population r k = sample population r (3 * k + 1) ∨
          tournament population r k = sample population r (3 * k + 2)) ∧
        (sample population r (3 * k)).fitness ≤ (tournament population r k).fitness ∧
        (sample population r (3 * k + 1)).fitness ≤ (tournament population r k).fitness ∧
        (sample population r (3 * k + 2)).fitness ≤ (tournament population r k).fitness := by
  refine ⟨?_, ?_, fun k => ⟨fun d _ => ⟨rfl, sample_mem population r _ hp⟩,
    top3_mem _ _ _, top3_ge _ _ _⟩⟩
  · unfold _extractParents
    simp only []
    refine (sort_perm _ _).trans ?_
    rw [(pickParents_eq population _ [] r).1, List.nil_append]
  · unfold _extractParents
    simp only []
    rw [(pickParents_eq population _ [] r).2]

/-- Witness: a population of two candidates, three parents asked for. -/
theorem extractParents_tournament_witness :
    [Genotype.ofGene [0, 1, 2], Genotype.ofGene [0, 2, 1]] ≠ [] ∧
      (_extractParents [Genotype.ofGene [0, 1, 2], Genotype.ofGene [0, 2, 1]] 3
          (fun k => k)).1.Perm
        ((List.range (if 3 % 2 ≠ 0 then 3 + 1 else 3)).map
          (tournament [Genotype.ofGene [0, 1, 2], Genotype.ofGene [0, 2, 1]] (fun k => k))) :=
  ⟨by decide,
    (extractParents_tournament [Genotype.ofGene [0, 1, 2], Genotype.ofGene [0, 2, 1]] 3
      (fun k => k) (by decide)).1⟩

end Evolution

namespace Evolution

/-! ### The parents of one generation -/

/-- The parent count of `evolve` before it is made even: a tenth of the population size. -/
theorem parentCount_eq (n : Nat) :
    Int.toNat ⌊((n * 10 : Nat) : ℚ) * DefaultParentPercent⌋ = n := by
  have h : ((n * 10 : Nat) : ℚ) * DefaultParentPercent = ((n : Int) : ℚ) := by
    unfold DefaultParentPercent
    push_cast
    ring
  rw [h, Int.floor_intCast]
  simp

theorem Invariant.parentCount {N : Nat} {e : Evolution} (h : Invariant N e) :
    Int.toNat ⌊(e._populationSize : ℚ) * DefaultParentPercent⌋ = (if N > 10 then N else 10) := by
  rw [h.1]
  by_cases hN : N > 10
  · rw [if_pos hN, if_pos hN]
    exact parentCount_eq N
  · rw [if_neg hN, if_neg hN]
    exact parentCount_eq 10

theorem _extractParents_sorted (population : Population) (parentCount : Nat) (r : Randomizer) :
    (_extractParents population parentCount r).1.Pairwise
      (fun a b => b.fitness ≤ a.fitness) := by
  unfold _extractParents
  exact sort_gt_sorted _

/-- C18. For every board size `N ≥ 1`, one `evolve()` step in a reachable state: the parent
count is `floor(populationSize * 0.10)`, which is 10 when `populationSize = 100` and `N` when
`N > 10`; `_extractParents` returns that count rounded up to an even number of parents,
sorted by score in non-increasing order; round `k` of the loop mates parent `2k` with parent
`2k+1` and appends their children; in all, as many children as parents are appended to the
population before it is sorted and cut back to `populationSize`. -/
theorem evolve_parents (N : Nat) (e : Evolution) (r : Randomizer) (hN : 1 ≤ N)
    (h : Reachable N e) :
    Int.toNat ⌊(e._populationSize : ℚ) * DefaultParentPercent⌋ = (if N > 10 then N else 10) ∧
      (_extractParents e._population (if N > 10 then N else 10) r).1.length =
        (if N > 10 then (if N % 2 ≠ 0 then N + 1 else N) else 10) ∧
      (_extractParents e._population (if N > 10 then N else 10) r).1.Pairwise
        (fun a b => b.fitness ≤ a.fitness) ∧
      (∀ k : Nat,
        breed (_extractParents e._population (if N > 10 then N else 10) r).1 (k + 1)
            e._population (_extractParents e._population (if N > 10 then N else 10) r).2 =
          ((breed (_extractParents e._population (if N > 10 then N else 10) r).1 k
              e._population
              (_extractParents e._population (if N > 10 then N else 10) r).2).1 ++
            (((_extractParents e._population (if N > 10 then N else 10) r).1.getD (k * 2)
                default).mate
              ((_extractParents e._population (if N > 10 then N else 10) r).1.getD (k * 2 + 1)
                default)
              (breed (_extractParents e._population (if N > 10 then N else 10) r).1 k
                e._population
                (_extractParents e._population (if N > 10 then N else 10) r).2).2).1,
           (((_extractParents e._population (if N > 10 then N else 10) r).1.getD (k * 2)
                default).mate
              ((_extractParents e._population (if N > 10 then N else 10) r).1.getD (k * 2 + 1)
                default)
              (breed (_extractParents e._population (if N > 10 then N else 10) r).1 k
                e._population
                (_extractParents e._population (if N > 10 then N else 10) r).2).2).2)) ∧
      ∃ children : Population,
        (breed (_extractParents e._population (if N > 10 then N else 10) r).1
            ((_extractParents e._population (if N > 10 then N else 10) r).1.length / 2)
            e._population
            (_extractParents e._population (if N > 10 then N else 10) r).2).1 =
          e._population ++ children ∧
        children.length = (if N > 10 then (if N % 2 ≠ 0 then N + 1 else N) else 10) ∧
        (e.evolve r).1._population =
          (sort Genotype.gt (e._population ++ children)).take e._populationSize := by
  have hi := h.invariant hN
  have hpc := hi.parentCount
  obtain ⟨p1, p2⟩ := _extractParents_spec e._population hi.population_ne_nil
    (if N > 10 then N else 10) r
  have hlen : (_extractParents e._population (if N > 10 then N else 10) r).1.length =
      (if N > 10 then (if N % 2 ≠ 0 then N + 1 else N) else 10) := by
    rw [p1]
    by_cases hN10 : N > 10
    · simp only [if_pos hN10]
    · simp only [if_neg hN10]
      rfl
  have hpar : ∀ c ∈ (_extractParents e._population (if N > 10 then N else 10) r).1,
      Genotype.IsPermutation N c._gene := fun c hc => (hi.2.2.1 c (p2 c hc)).1
  have heven : (_extractParents e._population (if N > 10 then N else 10) r).1.length / 2 * 2 =
      (_extractParents e._population (if N > 10 then N else 10) r).1.length := by
    rw [hlen]
    by_cases hN10 : N > 10
    · simp only [if_pos hN10]
      split <;> omega
    · simp only [if_neg hN10]
  obtain ⟨children, c1, c2, -⟩ := breed_spec hN _ hpar
    ((_extractParents e._population (if N > 10 then N else 10) r).1.length / 2)
    (by omega) e._population (_extractParents e._population (if N > 10 then N else 10) r).2
  refine ⟨hpc, hlen, _extractParents_sorted _ _ _, fun k => breed_succ _ k _ _,
    children, c1, by rw [c2, heven, hlen], ?_⟩
  rw [evolve_population, hpc, c1]

/-- Witness: board size 13 after construction, where 14 parents are selected. -/
theorem evolve_parents_witness :
    (1 ≤ 13 ∧ Reachable 13 (construct 13 1000 (fun k => k) (fun k => 7 * k + 1)).1) ∧
      (_extractParents (construct 13 1000 (fun k => k) (fun k => 7 * k + 1)).1._population
          (if 13 > 10 then 13 else 10) (fun k => 7 * k + 1)).1.length =
        (if 13 > 10 then (if 13 % 2 ≠ 0 then 13 + 1 else 13) else 10) :=
  ⟨⟨by decide, Reachable.construct _ _ _⟩,
    (evolve_parents 13 _ (fun k => 7 * k + 1) (by decide) (Reachable.construct _ _ _)).2.1⟩

end Evolution

namespace Evolution

/-! ### The initial population -/

/-- C19. Immediately after construction with board size `N ≥ 1`, the population consists of
`populationSize` copies of one candidate, so all members have the same gene and the same
cached collision count; that candidate is `Genotype(geneLength)` made with the engine as it
is on entry, and does not depend on the engine that the constructor seeds afterwards. -/
theorem construct_population (N : Nat) (L : Int) (r seeded : Randomizer) (_hN : 1 ≤ N) :
    (construct N L r seeded).1._population =
        List.replicate (construct N L r seeded).1._populationSize (Genotype.random N r).1 ∧
      (construct N L r seeded).1._populationSize = (if N > 10 then N * 10 else 100) ∧
      (construct N L r seeded).1._population.length =
        (construct N L r seeded).1._populationSize ∧
      (∀ c ∈ (construct N L r seeded).1._population, c = (Genotype.random N r).1) ∧
      (∀ c ∈ (construct N L r seeded).1._population,
        ∀ c' ∈ (construct N L r seeded).1._population,
          c._gene = c'._gene ∧ c._fitness = c'._fitness) ∧
      (∀ seeded' : Randomizer, (construct N L r seeded').1 = (construct N L r seeded).1) ∧
      (construct N L r seeded).2 = seeded := by
  have hall : ∀ c ∈ (construct N L r seeded).1._population, c = (Genotype.random N r).1 :=
    fun c hc => List.eq_of_mem_replicate hc
  refine ⟨rfl, rfl, (construct_invariant N L r seeded).2.1, hall, ?_, fun _ => rfl, rfl⟩
  intro c hc c' hc'
  rw [hall c hc, hall c' hc']
  exact ⟨rfl, rfl⟩

/-- Witness: board size 4. -/
theorem construct_population_witness :
    1 ≤ 4 ∧
      (construct 4 1000 (fun k => k) (fun k => 7 * k + 1)).1._population =
        List.replicate (construct 4 1000 (fun k => k) (fun k => 7 * k + 1)).1._populationSize
          (Genotype.random 4 (fun k => k)).1 :=
  ⟨by decide, (construct_population 4 1000 (fun k => k) (fun k => 7 * k + 1) (by decide)).1⟩

/-! ### Crossover of equal parents -/

theorem append_diff_left (t d : List Int) : (t ++ d).diff t = d := by
  induction t with
  | nil => simp
  | cons a t ih => rw [List.cons_append, List.diff_cons, List.erase_cons_head, ih]

theorem take_append_diff_take (l : List Int) (p : Nat) :
    l.take p ++ l.diff (l.take p) = l := by
  have h := append_diff_left (l.take p) (l.drop p)
  rw [List.take_append_drop] at h
  rw [h, List.take_append_drop]

/-- C20. Crossover of a candidate with another candidate of the same gene `g`, a permutation
of `{0..N-1}` with `N ≥ 1`, returns for every cut point two children whose genes are both `g`
and whose cached collision count is the one of the parent; and for parents of different
genes, when the cut point is 0 the gene of `childA` is the gene of `other` and the gene of
`childB` is the gene of `self`. -/
theorem crossover_identical (N : Nat) (self other : Genotype) (r : Randomizer) (hN : 1 ≤ N)
    (hs : Genotype.IsPermutation N self._gene) (ho : Genotype.IsPermutation N other._gene)
    (hcs : self._fitness = self.Fitness) :
    (∀ cached : Int, ∃ childA childB : Genotype,
        (self.crossover { _fitness := cached, _gene := self._gene } r).1 = [childA, childB] ∧
          childA._gene = self._gene ∧ childB._gene = self._gene ∧
          childA._fitness = self._fitness ∧ childB._fitness = self._fitness) ∧
      (r 0 % N = 0 → ∃ childA childB : Genotype,
        (self.crossover other r).1 = [childA, childB] ∧
          childA._gene = other._gene ∧ childB._gene = self._gene) := by
  have hls : self._gene.length = N := hs.1
  have hlo : other._gene.length = N := ho.1
  constructor
  · intro cached
    have hc := Genotype.crossover_genes self { _fitness := cached, _gene := self._gene } r
      rfl (by omega)
    simp only [take_append_diff_take] at hc
    have hf : (Genotype.ofGene self._gene)._fitness = self._fitness := by
      rw [hcs]
      exact Genotype.Fitness_congr rfl
    exact ⟨_, _, hc, rfl, rfl, hf, hf⟩
  · intro hp
    have hc := Genotype.crossover_genes self other r (by omega) (by omega)
    rw [hls, hp] at hc
    simp only [List.take_zero, List.nil_append, List.diff_nil] at hc
    exact ⟨_, _, hc, rfl, rfl⟩

/-- Witness: the candidate `<1, 3, 0, 2>` crossed with itself at the cut point 2, and with
`<3, 2, 1, 0>` at the cut point 0. -/
theorem crossover_identical_witness :
    (1 ≤ 4 ∧ Genotype.IsPermutation 4 (Genotype.ofGene [1, 3, 0, 2])._gene ∧
        Genotype.IsPermutation 4 (Genotype.ofGene [3, 2, 1, 0])._gene ∧
        (Genotype.ofGene [1, 3, 0, 2])._fitness = (Genotype.ofGene [1, 3, 0, 2]).Fitness) ∧
      (∃ childA childB : Genotype,
        ((Genotype.ofGene [1, 3, 0, 2]).crossover
            { _fitness := 0, _gene := (Genotype.ofGene [1, 3, 0, 2])._gene }
            (fun _ => 2)).1 = [childA, childB] ∧
          childA._gene = (Genotype.ofGene [1, 3, 0, 2])._gene ∧
          childB._gene = (Genotype.ofGene [1, 3, 0, 2])._gene) ∧
      (∃ childA childB : Genotype,
        ((Genotype.ofGene [1, 3, 0, 2]).crossover (Genotype.ofGene [3, 2, 1, 0])
            (fun _ => 4)).1 = [childA, childB] ∧
          childA._gene = (Genotype.ofGene [3, 2, 1, 0])._gene ∧
          childB._gene = (Genotype.ofGene [1, 3, 0, 2])._gene) :=
  ⟨⟨by decide, by decide, by decide, by decide⟩,
    ((crossover_identical 4 (Genotype.ofGene [1, 3, 0, 2]) (Genotype.ofGene [3, 2, 1, 0])
      (fun _ => 2) (by decide) (by decide) (by decide) (by decide)).1 0).elim
      (fun cA h => h.elim (fun cB hh => ⟨cA, cB, hh.1, hh.2.1, hh.2.2.1⟩)),
    (crossover_identical 4 (Genotype.ofGene [1, 3, 0, 2]) (Genotype.ofGene [3, 2, 1, 0])
      (fun _ => 4) (by decide) (by decide) (by decide) (by decide)).2 (by decide)⟩

end Evolution
